import Mathlib

/-!
Verification development for the dupefinder duplicate-file engine.

The Rust sources are shallowly embedded: the opaque filesystem
collaborators (directory listing, metadata, content fingerprint) become a
structure FS of functions returning Option values (none models an I/O
error), the mutable DupeFinder object becomes an explicit state record,
and the breadth-first directory walk is given a fuel parameter bounding
the number of worklist waves.  HashMap and HashSet fields become
association lists and duplicate-free insertion lists, fixing one
iteration order; no claim below depends on hash-table iteration order.

In addition to the data computed by the Rust code, the walk records the
list of directories for which a listing was requested (dirLog) and the
resolution phase records the list of paths passed to the content
fingerprinter (hashLog); these logs only observe the execution.
-/

namespace DF

/-- Association list lookup, mirroring HashMap get / contains_key. -/
def findA {α β : Type} [DecidableEq α] : List (α × β) → α → Option β
  | [], _ => none
  | (k, v) :: rest, q => if k = q then some v else findA rest q

/-- Association list insert with replacement, mirroring HashMap insert. -/
def insertReplace {α β : Type} [DecidableEq α] : List (α × β) → α → β → List (α × β)
  | [], k, v => [(k, v)]
  | (k0, v0) :: rest, k, v =>
    if k0 = k then (k, v) :: rest else (k0, v0) :: insertReplace rest k v

/-- Association list in-place modification, mirroring HashMap entry and_modify. -/
def modifyA {α β : Type} [DecidableEq α] : List (α × β) → α → (β → β) → List (α × β)
  | [], _, _ => []
  | (k0, v0) :: rest, k, f =>
    if k0 = k then (k0, f v0) :: rest else (k0, v0) :: modifyA rest k f

/-- Duplicate-free list insertion, mirroring HashSet insert. -/
def insertS {α : Type} [DecidableEq α] (s : List α) (a : α) : List α :=
  if a ∈ s then s else s ++ [a]

/-- Metadata of one filesystem entry: classification and byte length,
mirroring the parts of fs Metadata the engine reads. -/
structure FileMeta where
  is_file : Bool
  is_dir : Bool
  len : Nat
deriving DecidableEq

/-- A file record, mirroring DirData: path, metadata, and size
(set to the metadata byte length by both constructors). -/
structure DirData where
  path : String
  meta : FileMeta
  size : Nat
deriving DecidableEq

/-- The opaque filesystem collaborators.  listDir models fs read_dir
(the sequence of entry paths), meta models metadata retrieval, and
hashOf models the content fingerprinter; none models an I/O error. -/
structure FS where
  listDir : String → Option (List String)
  meta : String → Option FileMeta
  hashOf : String → Option String

/-- DirData construction from a path, mirroring both DirData new and
DirData new_from_path: look up metadata, size is the metadata length. -/
def DirData.new (fs : FS) (p : String) : Option DirData :=
  (fs.meta p).map fun m => { path := p, meta := m, size := m.len }

/-- A verified duplicate group, mirroring the Duplicate struct. -/
structure Duplicate where
  hash : String
  files : List String
  size : Nat
deriving DecidableEq

/-- Identity of the target file in target-file mode, mirroring FindFile. -/
structure FindFile where
  data : DirData
  hash : String
deriving DecidableEq

/-- FindFile construction, mirroring FindFile new: fingerprint the path,
then stat it; either failure fails the whole construction. -/
def FindFile.new (fs : FS) (path : String) : Option FindFile := do
  let hash ← fs.hashOf path
  let data ← DirData.new fs path
  pure { data := data, hash := hash }

/-- The engine state, mirroring the DupeFinder struct field for field. -/
structure DupeFinder where
  directories : List String
  file_sizes : List (Nat × List DirData)
  checked_directories : List String
  duplicate_file_sizes : List Nat
  follow_subdirs : Bool
  find_file : Option FindFile

/-- Engine construction shared by new and new_recursive. -/
def DupeFinder.mk0 (dirs : List String) (recurse : Bool) : DupeFinder :=
  { directories := dirs
    file_sizes := []
    checked_directories := []
    duplicate_file_sizes := []
    follow_subdirs := recurse
    find_file := none }

/-- Mirrors DupeFinder new. -/
def DupeFinder.new (dirs : List String) : DupeFinder := DupeFinder.mk0 dirs false

/-- Mirrors DupeFinder new_recursive. -/
def DupeFinder.new_recursive (dirs : List String) : DupeFinder := DupeFinder.mk0 dirs true

/-- The indexing predicate, mirroring should_insert_size.  Returns the
decision together with the subdirectory worklist, to which a directory
entry is appended when recursion is enabled. -/
def should_insert_size (df : DupeFinder) (data : DirData) (subdirs : List String) :
    Bool × List String :=
  if !data.meta.is_file then
    if df.follow_subdirs && data.meta.is_dir then
      (false, subdirs ++ [data.path])
    else
      (false, subdirs)
  else if data.size = 0 then
    (false, subdirs)
  else
    match df.find_file with
    | some ff =>
      if data.size ≠ ff.data.size then (false, subdirs)
      else if data.path = ff.data.path then (false, subdirs)
      else (true, subdirs)
    | none => (true, subdirs)

/-- Size Index insertion, mirroring insert_size: append to an existing
bucket (marking the size as a candidate) or create a singleton bucket. -/
def insert_size (df : DupeFinder) (data : DirData) : DupeFinder :=
  let len := data.meta.len
  if (findA df.file_sizes len).isSome then
    { df with
      file_sizes := modifyA df.file_sizes len (fun list => list ++ [data])
      duplicate_file_sizes := insertS df.duplicate_file_sizes len }
  else
    { df with file_sizes := df.file_sizes ++ [(len, [data])] }

/-- The entry loop of build_directory_contents: for each listed path,
build its DirData (skipping on error), apply the indexing predicate and
insert when it passes, accumulating discovered subdirectories. -/
def build_entries (fs : FS) (df : DupeFinder) :
    List String → List String → DupeFinder × List String
  | [], subdirs => (df, subdirs)
  | p :: rest, subdirs =>
    match DirData.new fs p with
    | none => build_entries fs df rest subdirs
    | some data =>
      match should_insert_size df data subdirs with
      | (true, subdirs1) => build_entries fs (insert_size df data) rest subdirs1
      | (false, subdirs1) => build_entries fs df rest subdirs1

/-- Mirrors build_directory_contents: list the directory (failing with
an error that the caller logs and skips) and fold its entries. -/
def build_directory_contents (fs : FS) (df : DupeFinder) (directory : String) :
    Option (DupeFinder × List String) :=
  match fs.listDir directory with
  | none => none
  | some entries => some (build_entries fs df entries [])

/-- One wave of the worklist loop in build_directories: skip directories
already checked, mark a fresh directory as checked, request its listing
(recording the request in the log), and collect subdirectories for the
next wave. -/
def process_dirs (fs : FS) (df : DupeFinder) :
    List String → List String → List String → DupeFinder × List String × List String
  | [], next, log => (df, next, log)
  | d :: rest, next, log =>
    if d ∈ df.checked_directories then
      process_dirs fs df rest next log
    else
      let df1 := { df with checked_directories := insertS df.checked_directories d }
      match build_directory_contents fs df1 d with
      | none => process_dirs fs df1 rest next (log ++ [d])
      | some (df2, subs) => process_dirs fs df2 rest (next ++ subs) (log ++ [d])

/-- The outer while loop of build_directories, with fuel bounding the
number of waves; each recursive call processes one wave of the worklist. -/
def build_loop (fs : FS) : Nat → DupeFinder → List String → List String →
    DupeFinder × List String
  | 0, df, _, log => (df, log)
  | fuel + 1, df, check_dirs, log =>
    match check_dirs with
    | [] => (df, log)
    | d :: rest =>
      match process_dirs fs df (d :: rest) [] log with
      | (df1, next, log1) => build_loop fs fuel df1 next log1

/-- Mirrors build_directories: start the worklist from the configured
roots with an empty enumeration log. -/
def build_directories (fs : FS) (fuel : Nat) (df : DupeFinder) :
    DupeFinder × List String :=
  build_loop fs fuel df df.directories []

/-- The record loop of check_path_duplicates over one size bucket:
fingerprint each record (logging the attempt, skipping on error), track
digest to path in the local map, and create or extend a duplicate group
when a digest repeats. -/
def cpd_loop (fs : FS) :
    List DirData → List (String × String) → List (String × Duplicate) → List String →
    List (String × String) × List (String × Duplicate) × List String
  | [], known, results, hlog => (known, results, hlog)
  | data :: rest, known, results, hlog =>
    match fs.hashOf data.path with
    | none => cpd_loop fs rest known results (hlog ++ [data.path])
    | some file_hash =>
      let prev := findA known file_hash
      let known1 := insertReplace known file_hash data.path
      match prev with
      | none => cpd_loop fs rest known1 results (hlog ++ [data.path])
      | some existing_file =>
        let results1 :=
          if (findA results file_hash).isSome then
            modifyA results file_hash (fun e => { e with files := e.files ++ [data.path] })
          else
            results ++ [(file_hash,
              { hash := file_hash
                files := [existing_file, data.path]
                size := data.meta.len })]
        cpd_loop fs rest known1 results1 (hlog ++ [data.path])

/-- Mirrors check_path_duplicates: in target-file mode the local digest
map is pre-seeded with the target and the record at position 0 is
skipped; in full-scan mode every record is processed. -/
def check_path_duplicates (fs : FS) (df : DupeFinder) (paths : List DirData)
    (results : List (String × Duplicate)) :
    List (String × Duplicate) × List String :=
  match df.find_file with
  | some ff =>
    let o := cpd_loop fs (paths.drop 1) [(ff.hash, ff.data.path)] results []
    (o.2.1, o.2.2)
  | none =>
    let o := cpd_loop fs paths [] results []
    (o.2.1, o.2.2)

/-- The candidate-size loop of check_duplicates, accumulating the result
map and the fingerprint log across buckets. -/
def cd_loop (fs : FS) (df : DupeFinder) :
    List Nat → List (String × Duplicate) → List String →
    List (String × Duplicate) × List String
  | [], results, hlog => (results, hlog)
  | s :: rest, results, hlog =>
    match findA df.file_sizes s with
    | some paths =>
      match check_path_duplicates fs df paths results with
      | (results1, h1) => cd_loop fs df rest results1 (hlog ++ h1)
    | none => cd_loop fs df rest results hlog

/-- Mirrors check_duplicates: resolve every candidate size. -/
def check_duplicates (fs : FS) (df : DupeFinder) :
    List (String × Duplicate) × List String :=
  cd_loop fs df df.duplicate_file_sizes [] []

/-- Mirrors the private initialize method: when the engine has already
run (the visited set is non-empty) clear all accumulated state. -/
def reset_state (df : DupeFinder) : DupeFinder :=
  if 0 < df.checked_directories.length then
    { df with
      file_sizes := []
      checked_directories := []
      duplicate_file_sizes := []
      find_file := none }
  else
    df

/-- Mirrors insert_find_file_size: seed the Size Index with a singleton
bucket holding the target record under the target size. -/
def insert_find_file_size (df : DupeFinder) : DupeFinder :=
  match df.find_file with
  | some ff =>
    { df with file_sizes := insertReplace df.file_sizes ff.data.size [ff.data] }
  | none => df

/-- Output of a full-scan run: the result map, the final engine state,
the directory enumeration log, and the resolution fingerprint log. -/
structure RunOut where
  result : List (String × Duplicate)
  state : DupeFinder
  dirLog : List String
  hashLog : List String

/-- Output of a target-file run; the error case mirrors the io Error. -/
structure FindOut where
  result : Except Unit (Option Duplicate)
  state : DupeFinder
  dirLog : List String
  hashLog : List String

/-- The pipeline of run after the initial reset. -/
def run_core (fs : FS) (fuel : Nat) (df : DupeFinder) : RunOut :=
  match build_directories fs fuel df with
  | (df1, dlog) =>
    match check_duplicates fs df1 with
    | (dupes, hlog) =>
      { result := dupes, state := df1, dirLog := dlog, hashLog := hlog }

/-- Mirrors run: reset, walk all roots, resolve all candidate sizes. -/
def run (fs : FS) (fuel : Nat) (df : DupeFinder) : RunOut :=
  run_core fs fuel (reset_state df)

/-- The pipeline of run_for_file after the reset, given that the target
identity was computed successfully. -/
def run_for_file_core (fs : FS) (fuel : Nat) (df : DupeFinder) (ff : FindFile) : FindOut :=
  let df1 := insert_find_file_size { df with find_file := some ff }
  match build_directories fs fuel df1 with
  | (df2, dlog) =>
    match check_duplicates fs df2 with
    | (dupes, hlog) =>
      match findA dupes ff.hash with
      | some value =>
        { result := Except.ok (some value), state := df2, dirLog := dlog, hashLog := hlog }
      | none =>
        { result := Except.ok none, state := df2, dirLog := dlog, hashLog := hlog }

/-- Mirrors run_for_file: reset, compute the target identity (failing
the whole call on an I/O error), seed the Size Index, walk, resolve,
and look up the result under the target digest. -/
def run_for_file (fs : FS) (fuel : Nat) (df : DupeFinder) (path : String) : FindOut :=
  let df0 := reset_state df
  match FindFile.new fs path with
  | none => { result := Except.error (), state := df0, dirLog := [], hashLog := [] }
  | some ff => run_for_file_core fs fuel df0 ff

end DF

namespace DF

/-! ### Association list lemmas -/

theorem findA_insertReplace_self {α β : Type} [DecidableEq α]
    (m : List (α × β)) (k : α) (v : β) : findA (insertReplace m k v) k = some v := by
  induction m with
  | nil => simp [insertReplace, findA]
  | cons kv rest ih =>
    obtain ⟨k0, v0⟩ := kv
    by_cases h : k0 = k
    · simp [insertReplace, h, findA]
    · simp [insertReplace, h, findA, ih]

theorem findA_insertReplace_ne {α β : Type} [DecidableEq α]
    (m : List (α × β)) (k j : α) (v : β) (h : j ≠ k) :
    findA (insertReplace m k v) j = findA m j := by
  have hkj : ¬ k = j := fun e => h e.symm
  induction m with
  | nil => simp [insertReplace, findA, hkj]
  | cons kv rest ih =>
    obtain ⟨k0, v0⟩ := kv
    by_cases hk : k0 = k
    · subst hk
      simp [insertReplace, findA, hkj]
    · simp [insertReplace, hk, findA, ih]

theorem mem_insertReplace {α β : Type} [DecidableEq α]
    {m : List (α × β)} {k : α} {v : β} {x : α × β} (h : x ∈ insertReplace m k v) :
    x ∈ m ∨ x = (k, v) := by
  induction m with
  | nil => simpa [insertReplace] using h
  | cons kv rest ih =>
    obtain ⟨k0, v0⟩ := kv
    by_cases hk : k0 = k
    · rcases (by simpa [insertReplace, hk] using h) with h1 | h1
      · right; simp [h1]
      · left; simp [h1]
    · rcases (by simpa [insertReplace, hk] using h) with h1 | h1
      · left; simp [h1]
      · rcases ih h1 with h2 | h2
        · left; simp [h2]
        · right; exact h2

theorem findA_modifyA_self {α β : Type} [DecidableEq α]
    (m : List (α × β)) (k : α) (f : β → β) :
    findA (modifyA m k f) k = (findA m k).map f := by
  induction m with
  | nil => simp [modifyA, findA]
  | cons kv rest ih =>
    obtain ⟨k0, v0⟩ := kv
    by_cases hk : k0 = k
    · simp [modifyA, hk, findA]
    · simp [modifyA, hk, findA, ih]

theorem findA_modifyA_ne {α β : Type} [DecidableEq α]
    (m : List (α × β)) (k j : α) (f : β → β) (h : j ≠ k) :
    findA (modifyA m k f) j = findA m j := by
  have hkj : ¬ k = j := fun e => h e.symm
  induction m with
  | nil => simp [modifyA]
  | cons kv rest ih =>
    obtain ⟨k0, v0⟩ := kv
    by_cases hk : k0 = k
    · subst hk
      simp [modifyA, findA, hkj]
    · simp [modifyA, hk, findA, ih]

theorem mem_modifyA {α β : Type} [DecidableEq α]
    {m : List (α × β)} {k : α} {f : β → β} {x : α × β} (h : x ∈ modifyA m k f) :
    x ∈ m ∨ ∃ v, (k, v) ∈ m ∧ x = (k, f v) := by
  induction m with
  | nil => simp [modifyA] at h
  | cons kv rest ih =>
    obtain ⟨k0, v0⟩ := kv
    by_cases hk : k0 = k
    · subst hk
      rcases (by simpa [modifyA] using h) with h1 | h1
      · right; exact ⟨v0, by simp, h1⟩
      · left; simp [h1]
    · rcases (by simpa [modifyA, hk] using h) with h1 | h1
      · left; simp [h1]
      · rcases ih h1 with h2 | ⟨v, hv, hx⟩
        · left; simp [h2]
        · right; exact ⟨v, by simp [hv], hx⟩

theorem findA_append_left {α β : Type} [DecidableEq α]
    {m : List (α × β)} {j : α} {v : β} (m2 : List (α × β)) (h : findA m j = some v) :
    findA (m ++ m2) j = some v := by
  induction m with
  | nil => simp [findA] at h
  | cons kv rest ih =>
    obtain ⟨k0, v0⟩ := kv
    by_cases hk : k0 = j
    · simp [findA, hk] at h ⊢
      exact h
    · simp [findA, hk] at h ⊢
      exact ih h

theorem findA_append_right {α β : Type} [DecidableEq α]
    {m : List (α × β)} {j : α} (m2 : List (α × β)) (h : findA m j = none) :
    findA (m ++ m2) j = findA m2 j := by
  induction m with
  | nil => simp
  | cons kv rest ih =>
    obtain ⟨k0, v0⟩ := kv
    by_cases hk : k0 = j
    · simp [findA, hk] at h
    · simp [findA, hk] at h ⊢
      exact ih h

theorem findA_mem {α β : Type} [DecidableEq α]
    {m : List (α × β)} {k : α} {v : β} (h : findA m k = some v) : (k, v) ∈ m := by
  induction m with
  | nil => simp [findA] at h
  | cons kv rest ih =>
    obtain ⟨k0, v0⟩ := kv
    by_cases hk : k0 = k
    · subst hk
      simp [findA] at h
      simp [h]
    · simp [findA, hk] at h
      simp [ih h]

theorem mem_insertS {α : Type} [DecidableEq α] {s : List α} {a x : α} :
    x ∈ insertS s a ↔ x ∈ s ∨ x = a := by
  unfold insertS
  by_cases h : a ∈ s
  · simp only [h, if_true]
    constructor
    · exact Or.inl
    · rintro (hx | rfl)
      · exact hx
      · exact h
  · simp [h]

theorem self_mem_insertS {α : Type} [DecidableEq α] (s : List α) (a : α) :
    a ∈ insertS s a := mem_insertS.mpr (Or.inr rfl)

end DF

namespace DF

/-! ### Specification lemmas for record construction and the predicate -/

theorem DirData_new_spec {fs : FS} {p : String} {d : DirData}
    (h : DirData.new fs p = some d) :
    fs.meta p = some d.meta ∧ d.path = p ∧ d.size = d.meta.len := by
  unfold DirData.new at h
  obtain ⟨m, hm, he⟩ := Option.map_eq_some'.mp h
  subst he
  exact ⟨hm, rfl, rfl⟩


theorem FindFile_new_spec {fs : FS} {p : String} {ff : FindFile}
    (h : FindFile.new fs p = some ff) :
    fs.hashOf p = some ff.hash ∧ fs.meta p = some ff.data.meta ∧ ff.data.path = p ∧
      ff.data.size = ff.data.meta.len := by
  unfold FindFile.new at h
  cases hh : fs.hashOf p with
  | none => rw [hh] at h; simp at h
  | some hsh =>
    rw [hh] at h
    cases hd : DirData.new fs p with
    | none => rw [hd] at h; simp at h
    | some d =>
      rw [hd] at h
      simp at h
      obtain ⟨hm, hp, hs⟩ := DirData_new_spec hd
      subst h
      exact ⟨rfl, hm, hp, hs⟩

theorem should_insert_size_notfile {df : DupeFinder} {data : DirData} (sd : List String)
    (hf : data.meta.is_file = false) :
    should_insert_size df data sd =
      if df.follow_subdirs && data.meta.is_dir then (false, sd ++ [data.path])
      else (false, sd) := by
  simp [should_insert_size, hf]

theorem should_insert_size_zero {df : DupeFinder} {data : DirData} (sd : List String)
    (hf : data.meta.is_file = true) (hz : data.size = 0) :
    should_insert_size df data sd = (false, sd) := by
  simp [should_insert_size, hf, hz]

theorem should_insert_size_full {df : DupeFinder} {data : DirData} (sd : List String)
    (hf : data.meta.is_file = true) (hz : data.size ≠ 0) (hff : df.find_file = none) :
    should_insert_size df data sd = (true, sd) := by
  simp [should_insert_size, hf, hz, hff]

theorem should_insert_size_target {df : DupeFinder} {data : DirData} {ff : FindFile}
    (sd : List String) (hf : data.meta.is_file = true) (hz : data.size ≠ 0)
    (hff : df.find_file = some ff) :
    should_insert_size df data sd =
      if data.size ≠ ff.data.size then (false, sd)
      else if data.path = ff.data.path then (false, sd)
      else (true, sd) := by
  simp [should_insert_size, hf, hz, hff]

theorem should_insert_true_spec {df : DupeFinder} {data : DirData} {sd sd1 : List String}
    (h : should_insert_size df data sd = (true, sd1)) :
    data.meta.is_file = true ∧ data.size ≠ 0 ∧
      (∀ ff, df.find_file = some ff → data.size = ff.data.size ∧ data.path ≠ ff.data.path) ∧
      sd1 = sd := by
  cases hf : data.meta.is_file with
  | false =>
    rw [should_insert_size_notfile sd hf] at h
    by_cases hd : df.follow_subdirs && data.meta.is_dir <;> simp [hd] at h
  | true =>
    by_cases hz : data.size = 0
    · rw [should_insert_size_zero sd hf hz] at h
      simp at h
    · cases hff : df.find_file with
      | none =>
        rw [should_insert_size_full sd hf hz hff] at h
        simp at h
        refine ⟨rfl, hz, ?_, h.symm⟩
        intro ff e
        simp at e
      | some ff =>
        rw [should_insert_size_target sd hf hz hff] at h
        by_cases hs : data.size = ff.data.size
        · rw [if_neg (not_not_intro hs)] at h
          by_cases hp : data.path = ff.data.path
          · rw [if_pos hp] at h
            simp at h
          · rw [if_neg hp] at h
            simp at h
            refine ⟨rfl, hz, ?_, h.symm⟩
            intro ff1 e
            injection e with e
            subst e
            exact ⟨hs, hp⟩
        · rw [if_pos hs] at h
          simp at h

theorem should_insert_nonrecursive_discards {df : DupeFinder} {data : DirData}
    (sd : List String) (hrec : df.follow_subdirs = false) (hf : data.meta.is_file = false) :
    should_insert_size df data sd = (false, sd) := by
  unfold should_insert_size
  simp [hf, hrec]

theorem insert_size_frame (df : DupeFinder) (data : DirData) :
    (insert_size df data).directories = df.directories ∧
      (insert_size df data).follow_subdirs = df.follow_subdirs ∧
      (insert_size df data).find_file = df.find_file ∧
      (insert_size df data).checked_directories = df.checked_directories := by
  unfold insert_size
  by_cases h : (findA df.file_sizes data.meta.len).isSome <;> simp [h]

/-! ### Unfolding equations for the walk loops -/

theorem build_entries_nil (fs : FS) (df : DupeFinder) (sd : List String) :
    build_entries fs df [] sd = (df, sd) := rfl

theorem build_entries_cons_err {fs : FS} {p : String} (df : DupeFinder)
    (rest : List String) (sd : List String) (h : DirData.new fs p = none) :
    build_entries fs df (p :: rest) sd = build_entries fs df rest sd := by
  simp [build_entries, h]

theorem build_entries_cons_true {fs : FS} {p : String} {data : DirData} {df : DupeFinder}
    {sd sd1 : List String} (rest : List String) (hd : DirData.new fs p = some data)
    (hs : should_insert_size df data sd = (true, sd1)) :
    build_entries fs df (p :: rest) sd = build_entries fs (insert_size df data) rest sd1 := by
  simp [build_entries, hd, hs]

theorem build_entries_cons_false {fs : FS} {p : String} {data : DirData} {df : DupeFinder}
    {sd sd1 : List String} (rest : List String) (hd : DirData.new fs p = some data)
    (hs : should_insert_size df data sd = (false, sd1)) :
    build_entries fs df (p :: rest) sd = build_entries fs df rest sd1 := by
  simp [build_entries, hd, hs]

theorem process_dirs_nil (fs : FS) (df : DupeFinder) (next log : List String) :
    process_dirs fs df [] next log = (df, next, log) := rfl

theorem process_dirs_cons_mem {fs : FS} {df : DupeFinder} {d : String}
    (rest next log : List String) (hc : d ∈ df.checked_directories) :
    process_dirs fs df (d :: rest) next log = process_dirs fs df rest next log := by
  simp [process_dirs, hc]

theorem process_dirs_cons_err {fs : FS} {df : DupeFinder} {d : String}
    (rest next log : List String) (hc : d ∉ df.checked_directories)
    (hbd : build_directory_contents fs
      { df with checked_directories := insertS df.checked_directories d } d = none) :
    process_dirs fs df (d :: rest) next log =
      process_dirs fs { df with checked_directories := insertS df.checked_directories d }
        rest next (log ++ [d]) := by
  simp [process_dirs, hc, hbd]

theorem process_dirs_cons_ok {fs : FS} {df df2 : DupeFinder} {d : String}
    {subs : List String} (rest next log : List String) (hc : d ∉ df.checked_directories)
    (hbd : build_directory_contents fs
      { df with checked_directories := insertS df.checked_directories d } d = some (df2, subs)) :
    process_dirs fs df (d :: rest) next log =
      process_dirs fs df2 rest (next ++ subs) (log ++ [d]) := by
  simp [process_dirs, hc, hbd]

theorem build_loop_zero (fs : FS) (df : DupeFinder) (cds log : List String) :
    build_loop fs 0 df cds log = (df, log) := rfl

theorem build_loop_succ_nil (fs : FS) (n : Nat) (df : DupeFinder) (log : List String) :
    build_loop fs (n + 1) df [] log = (df, log) := rfl

theorem build_loop_succ_cons {fs : FS} {df df1 : DupeFinder} {d : String}
    {rest next log1 : List String} (n : Nat) (log : List String)
    (hp : process_dirs fs df (d :: rest) [] log = (df1, next, log1)) :
    build_loop fs (n + 1) df (d :: rest) log = build_loop fs n df1 next log1 := by
  simp [build_loop, hp]

/-! ### Generic preservation of state predicates through the walk -/

/-- Every record accepted by the indexing predicate during a walk over
filesystem fs with target identity F satisfies these properties. -/
def InsOK (fs : FS) (F : Option FindFile) (d : DirData) : Prop :=
  fs.meta d.path = some d.meta ∧ d.size = d.meta.len ∧ d.meta.is_file = true ∧
    d.size ≠ 0 ∧ ∀ ff, F = some ff → d.size = ff.data.size ∧ d.path ≠ ff.data.path

theorem build_entries_pres (fs : FS) (Q : DupeFinder → Prop)
    (Hins : ∀ df data, Q df → InsOK fs df.find_file data → Q (insert_size df data)) :
    ∀ es df sd, Q df → Q (build_entries fs df es sd).1 := by
  intro es
  induction es with
  | nil =>
    intro df sd hq
    simpa [build_entries_nil] using hq
  | cons p rest ih =>
    intro df sd hq
    cases hd : DirData.new fs p with
    | none =>
      rw [build_entries_cons_err df rest sd hd]
      exact ih df sd hq
    | some data =>
      cases hs : should_insert_size df data sd with
      | mk b sd1 =>
        cases b with
        | false =>
          rw [build_entries_cons_false rest hd hs]
          exact ih df sd1 hq
        | true =>
          rw [build_entries_cons_true rest hd hs]
          apply ih
          apply Hins df data hq
          obtain ⟨hm, hp, hsz⟩ := DirData_new_spec hd
          obtain ⟨h1, h2, h3, _⟩ := should_insert_true_spec hs
          exact ⟨hp ▸ hm, hsz, h1, h2, h3⟩

theorem build_directory_contents_pres (fs : FS) (Q : DupeFinder → Prop)
    (Hins : ∀ df data, Q df → InsOK fs df.find_file data → Q (insert_size df data))
    {df df2 : DupeFinder} {d : String} {subs : List String}
    (h : build_directory_contents fs df d = some (df2, subs)) (hq : Q df) : Q df2 := by
  unfold build_directory_contents at h
  cases hl : fs.listDir d with
  | none => rw [hl] at h; simp at h
  | some es =>
    rw [hl] at h
    simp at h
    have h2 := build_entries_pres fs Q Hins es df [] hq
    rw [h] at h2
    exact h2

theorem process_dirs_pres (fs : FS) (Q : DupeFinder → Prop)
    (Hins : ∀ df data, Q df → InsOK fs df.find_file data → Q (insert_size df data))
    (Hchk : ∀ df c, Q df → Q { df with checked_directories := c }) :
    ∀ dirs df next log, Q df → Q (process_dirs fs df dirs next log).1 := by
  intro dirs
  induction dirs with
  | nil =>
    intro df next log hq
    simpa [process_dirs_nil] using hq
  | cons d rest ih =>
    intro df next log hq
    by_cases hc : d ∈ df.checked_directories
    · rw [process_dirs_cons_mem rest next log hc]
      exact ih df next log hq
    · have hq1 : Q { df with checked_directories := insertS df.checked_directories d } :=
        Hchk df _ hq
      cases hbd : build_directory_contents fs
          { df with checked_directories := insertS df.checked_directories d } d with
      | none =>
        rw [process_dirs_cons_err rest next log hc hbd]
        exact ih _ next (log ++ [d]) hq1
      | some pr =>
        obtain ⟨df2, subs⟩ := pr
        rw [process_dirs_cons_ok rest next log hc hbd]
        exact ih df2 (next ++ subs) (log ++ [d])
          (build_directory_contents_pres fs Q Hins hbd hq1)

theorem build_loop_pres (fs : FS) (Q : DupeFinder → Prop)
    (Hins : ∀ df data, Q df → InsOK fs df.find_file data → Q (insert_size df data))
    (Hchk : ∀ df c, Q df → Q { df with checked_directories := c }) :
    ∀ fuel df cds log, Q df → Q (build_loop fs fuel df cds log).1 := by
  intro fuel
  induction fuel with
  | zero =>
    intro df cds log hq
    simpa [build_loop_zero] using hq
  | succ n ih =>
    intro df cds log hq
    cases cds with
    | nil => simpa [build_loop_succ_nil] using hq
    | cons d rest =>
      cases hp : process_dirs fs df (d :: rest) [] log with
      | mk df1 pr =>
        obtain ⟨next, log1⟩ := pr
        rw [build_loop_succ_cons n log hp]
        have hq1 : Q df1 := by
          have h2 := process_dirs_pres fs Q Hins Hchk (d :: rest) df [] log hq
          rw [hp] at h2
          exact h2
        exact ih df1 next log1 hq1

theorem build_directories_pres (fs : FS) (Q : DupeFinder → Prop)
    (Hins : ∀ df data, Q df → InsOK fs df.find_file data → Q (insert_size df data))
    (Hchk : ∀ df c, Q df → Q { df with checked_directories := c })
    (fuel : Nat) (df : DupeFinder) (hq : Q df) :
    Q (build_directories fs fuel df).1 :=
  build_loop_pres fs Q Hins Hchk fuel df df.directories [] hq

theorem build_directories_frame (fs : FS) (fuel : Nat) (df : DupeFinder) :
    (build_directories fs fuel df).1.directories = df.directories ∧
      (build_directories fs fuel df).1.follow_subdirs = df.follow_subdirs ∧
      (build_directories fs fuel df).1.find_file = df.find_file :=
  build_directories_pres fs
    (fun x => x.directories = df.directories ∧ x.follow_subdirs = df.follow_subdirs ∧
      x.find_file = df.find_file)
    (fun d1 data hq _ => by
      obtain ⟨f1, f2, f3, _⟩ := insert_size_frame d1 data
      exact ⟨f1.trans hq.1, f2.trans hq.2.1, f3.trans hq.2.2⟩)
    (fun d1 c hq => hq)
    fuel df ⟨rfl, rfl, rfl⟩

/-! ### The Size Index invariant -/

/-- A record in the Size Index is either one accepted by the indexing
predicate or the seeded target record. -/
def RecInv (fs : FS) (F : Option FindFile) (r : DirData) : Prop :=
  InsOK fs F r ∨ ∃ ff, F = some ff ∧ r = ff.data

/-- The Size Index invariant: every bucket is non-empty, keyed by the
metadata length of each of its records, with every record walk-accepted
or the seeded target; every candidate size has a bucket of length two
or more. -/
def SIndexInv (fs : FS) (df : DupeFinder) : Prop :=
  (∀ s b, findA df.file_sizes s = some b →
    b ≠ [] ∧ ∀ r ∈ b, RecInv fs df.find_file r ∧ r.meta.len = s) ∧
  (∀ s ∈ df.duplicate_file_sizes, ∃ b, findA df.file_sizes s = some b ∧ 2 ≤ b.length)

theorem insert_size_SIndexInv {fs : FS} {df : DupeFinder} {data : DirData}
    (hq : SIndexInv fs df) (hok : InsOK fs df.find_file data) :
    SIndexInv fs (insert_size df data) := by
  obtain ⟨hb, hc⟩ := hq
  have hffp : (insert_size df data).find_file = df.find_file :=
    (insert_size_frame df data).2.2.1
  by_cases h : (findA df.file_sizes data.meta.len).isSome
  · obtain ⟨b0, hb0⟩ := Option.isSome_iff_exists.mp h
    have hfs : (insert_size df data).file_sizes =
        modifyA df.file_sizes data.meta.len (fun list => list ++ [data]) := by
      simp [insert_size, h]
    have hdup : (insert_size df data).duplicate_file_sizes =
        insertS df.duplicate_file_sizes data.meta.len := by
      simp [insert_size, h]
    constructor
    · intro s b hfind
      rw [hfs] at hfind
      rw [hffp]
      by_cases hs : s = data.meta.len
      · subst hs
        rw [findA_modifyA_self, hb0] at hfind
        simp only [Option.map_some'] at hfind
        injection hfind with hfind
        subst hfind
        refine ⟨by simp, ?_⟩
        intro r hr
        rcases List.mem_append.mp hr with hr1 | hr1
        · exact (hb _ _ hb0).2 r hr1
        · simp at hr1
          subst hr1
          exact ⟨Or.inl hok, rfl⟩
      · rw [findA_modifyA_ne _ _ _ _ hs] at hfind
        exact hb s b hfind
    · intro s hs
      rw [hdup] at hs
      rw [hfs]
      rcases mem_insertS.mp hs with hs1 | hs1
      · obtain ⟨b1, hb1, hlen⟩ := hc s hs1
        by_cases hseq : s = data.meta.len
        · subst hseq
          refine ⟨b1 ++ [data], ?_, ?_⟩
          · rw [findA_modifyA_self, hb1]
            simp
          · simp
            omega
        · refine ⟨b1, ?_, hlen⟩
          rw [findA_modifyA_ne _ _ _ _ hseq]
          exact hb1
      · subst hs1
        refine ⟨b0 ++ [data], ?_, ?_⟩
        · rw [findA_modifyA_self, hb0]
          simp
        · have hne : b0 ≠ [] := (hb _ _ hb0).1
          have hpos : 0 < b0.length := List.length_pos.mpr hne
          simp
          omega
  · have hnone : findA df.file_sizes data.meta.len = none :=
      Option.not_isSome_iff_eq_none.mp h
    have hfs : (insert_size df data).file_sizes =
        df.file_sizes ++ [(data.meta.len, [data])] := by
      simp [insert_size, h]
    have hdup : (insert_size df data).duplicate_file_sizes = df.duplicate_file_sizes := by
      simp [insert_size, h]
    constructor
    · intro s b hfind
      rw [hfs] at hfind
      rw [hffp]
      by_cases hs : s = data.meta.len
      · subst hs
        rw [findA_append_right _ hnone] at hfind
        simp [findA] at hfind
        subst hfind
        refine ⟨by simp, ?_⟩
        intro r hr
        simp at hr
        subst hr
        exact ⟨Or.inl hok, rfl⟩
      · cases hf2 : findA df.file_sizes s with
        | none =>
          rw [findA_append_right _ hf2] at hfind
          have hne : ¬ data.meta.len = s := fun e => hs e.symm
          simp [findA, hne] at hfind
        | some b2 =>
          rw [findA_append_left _ hf2] at hfind
          injection hfind with hfind
          subst hfind
          exact hb s b2 hf2
    · intro s hs
      rw [hdup] at hs
      obtain ⟨b1, hb1, hlen⟩ := hc s hs
      refine ⟨b1, ?_, hlen⟩
      rw [hfs]
      exact findA_append_left _ hb1

theorem build_directories_SIndexInv (fs : FS) (fuel : Nat) (df : DupeFinder)
    (hq : SIndexInv fs df) : SIndexInv fs (build_directories fs fuel df).1 :=
  build_directories_pres fs (SIndexInv fs)
    (fun _ _ hq1 hok => insert_size_SIndexInv hq1 hok)
    (fun _ _ hq1 => hq1)
    fuel df hq

theorem SIndexInv_mk0 (fs : FS) (dirs : List String) (recurse : Bool) :
    SIndexInv fs (DupeFinder.mk0 dirs recurse) := by
  constructor
  · intro s b hfind
    simp [DupeFinder.mk0, findA] at hfind
  · intro s hs
    simp [DupeFinder.mk0] at hs

/-! ### Unfolding equations for the resolution loops -/

theorem cpd_loop_nil (fs : FS) (known : List (String × String))
    (results : List (String × Duplicate)) (hlog : List String) :
    cpd_loop fs [] known results hlog = (known, results, hlog) := rfl

theorem cpd_loop_cons_err {fs : FS} {data : DirData} (rest : List DirData)
    (known : List (String × String)) (results : List (String × Duplicate))
    (hlog : List String) (h : fs.hashOf data.path = none) :
    cpd_loop fs (data :: rest) known results hlog =
      cpd_loop fs rest known results (hlog ++ [data.path]) := by
  simp [cpd_loop, h]

theorem cpd_loop_cons_new {fs : FS} {data : DirData} {fh : String} (rest : List DirData)
    (known : List (String × String)) (results : List (String × Duplicate))
    (hlog : List String) (h : fs.hashOf data.path = some fh)
    (hprev : findA known fh = none) :
    cpd_loop fs (data :: rest) known results hlog =
      cpd_loop fs rest (insertReplace known fh data.path) results (hlog ++ [data.path]) := by
  simp [cpd_loop, h, hprev]

theorem cpd_loop_cons_push {fs : FS} {data : DirData} {fh q : String} (rest : List DirData)
    (known : List (String × String)) (results : List (String × Duplicate))
    (hlog : List String) (h : fs.hashOf data.path = some fh)
    (hprev : findA known fh = some q) (hres : (findA results fh).isSome) :
    cpd_loop fs (data :: rest) known results hlog =
      cpd_loop fs rest (insertReplace known fh data.path)
        (modifyA results fh (fun e => { e with files := e.files ++ [data.path] }))
        (hlog ++ [data.path]) := by
  simp [cpd_loop, h, hprev, hres]

theorem cpd_loop_cons_create {fs : FS} {data : DirData} {fh q : String} (rest : List DirData)
    (known : List (String × String)) (results : List (String × Duplicate))
    (hlog : List String) (h : fs.hashOf data.path = some fh)
    (hprev : findA known fh = some q) (hres : findA results fh = none) :
    cpd_loop fs (data :: rest) known results hlog =
      cpd_loop fs rest (insertReplace known fh data.path)
        (results ++ [(fh, { hash := fh, files := [q, data.path], size := data.meta.len })])
        (hlog ++ [data.path]) := by
  simp [cpd_loop, h, hprev, hres]

theorem cpd_loop_hlog (fs : FS) :
    ∀ (l : List DirData) (known : List (String × String))
      (results : List (String × Duplicate)) (hlog : List String),
      (cpd_loop fs l known results hlog).2.2 = hlog ++ l.map (fun d => d.path) := by
  intro l
  induction l with
  | nil => intro known results hlog; simp [cpd_loop_nil]
  | cons data rest ih =>
    intro known results hlog
    cases hh : fs.hashOf data.path with
    | none =>
      rw [cpd_loop_cons_err rest known results hlog hh, ih]
      simp
    | some fh =>
      cases hprev : findA known fh with
      | none =>
        rw [cpd_loop_cons_new rest known results hlog hh hprev, ih]
        simp
      | some q =>
        cases hres : findA results fh with
        | none =>
          rw [cpd_loop_cons_create rest known results hlog hh hprev hres, ih]
          simp
        | some g =>
          have hres2 : (findA results fh).isSome := by simp [hres]
          rw [cpd_loop_cons_push rest known results hlog hh hprev hres2, ih]
          simp

theorem check_path_duplicates_full {fs : FS} {df : DupeFinder}
    (paths : List DirData) (results : List (String × Duplicate))
    (hf : df.find_file = none) :
    check_path_duplicates fs df paths results =
      ((cpd_loop fs paths [] results []).2.1, (cpd_loop fs paths [] results []).2.2) := by
  simp [check_path_duplicates, hf]

theorem check_path_duplicates_target {fs : FS} {df : DupeFinder} {ff : FindFile}
    (paths : List DirData) (results : List (String × Duplicate))
    (hf : df.find_file = some ff) :
    check_path_duplicates fs df paths results =
      ((cpd_loop fs (paths.drop 1) [(ff.hash, ff.data.path)] results []).2.1,
        (cpd_loop fs (paths.drop 1) [(ff.hash, ff.data.path)] results []).2.2) := by
  simp [check_path_duplicates, hf]

theorem cd_loop_nil (fs : FS) (df : DupeFinder) (results : List (String × Duplicate))
    (hlog : List String) : cd_loop fs df [] results hlog = (results, hlog) := rfl

theorem cd_loop_cons_some {fs : FS} {df : DupeFinder} {s : Nat} {paths : List DirData}
    (rest : List Nat) (results : List (String × Duplicate)) (hlog : List String)
    (h : findA df.file_sizes s = some paths) :
    cd_loop fs df (s :: rest) results hlog =
      cd_loop fs df rest (check_path_duplicates fs df paths results).1
        (hlog ++ (check_path_duplicates fs df paths results).2) := by
  simp [cd_loop, h]

theorem cd_loop_cons_none {fs : FS} {df : DupeFinder} {s : Nat} (rest : List Nat)
    (results : List (String × Duplicate)) (hlog : List String)
    (h : findA df.file_sizes s = none) :
    cd_loop fs df (s :: rest) results hlog = cd_loop fs df rest results hlog := by
  simp [cd_loop, h]

/-! ### Soundness of the result map -/

/-- Digests determine byte lengths: the collision-freeness assumption on
the content fingerprinter, under which files of different sizes never
share a digest. -/
def HSC (fs : FS) : Prop :=
  ∀ p q h mp mq, fs.hashOf p = some h → fs.hashOf q = some h →
    fs.meta p = some mp → fs.meta q = some mq → mp.len = mq.len

/-- A well-formed duplicate group under key h: the hash field equals the
key, there are at least two members, and every member path carries the
group digest and the group byte size on the filesystem. -/
def GroupGood (fs : FS) (h : String) (g : Duplicate) : Prop :=
  g.hash = h ∧ 2 ≤ g.files.length ∧
    ∀ p ∈ g.files, fs.hashOf p = some h ∧ ∃ m, fs.meta p = some m ∧ m.len = g.size

def ResultsGood (fs : FS) (results : List (String × Duplicate)) : Prop :=
  ∀ h g, (h, g) ∈ results → GroupGood fs h g

def KnownGood (fs : FS) (known : List (String × String)) : Prop :=
  ∀ h p, (h, p) ∈ known → fs.hashOf p = some h ∧ ∃ m, fs.meta p = some m

theorem cpd_good {fs : FS} (hsc : HSC fs) :
    ∀ (l : List DirData) (known : List (String × String))
      (results : List (String × Duplicate)) (hlog : List String),
      (∀ r ∈ l, fs.meta r.path = some r.meta) →
      KnownGood fs known → ResultsGood fs results →
      ResultsGood fs (cpd_loop fs l known results hlog).2.1 := by
  intro l
  induction l with
  | nil =>
    intro known results hlog _ _ hr
    simpa [cpd_loop_nil] using hr
  | cons data rest ih =>
    intro known results hlog hrec hk hr
    have hrecd : fs.meta data.path = some data.meta := hrec data (by simp)
    have hrecr : ∀ r ∈ rest, fs.meta r.path = some r.meta :=
      fun r hr2 => hrec r (by simp [hr2])
    cases hh : fs.hashOf data.path with
    | none =>
      rw [cpd_loop_cons_err rest known results hlog hh]
      exact ih _ _ _ hrecr hk hr
    | some fh =>
      have hk1 : KnownGood fs (insertReplace known fh data.path) := by
        intro h p hp
        rcases mem_insertReplace hp with hp1 | hp1
        · exact hk h p hp1
        · injection hp1 with e1 e2
          subst e1
          subst e2
          exact ⟨hh, data.meta, hrecd⟩
      cases hprev : findA known fh with
      | none =>
        rw [cpd_loop_cons_new rest known results hlog hh hprev]
        exact ih _ _ _ hrecr hk1 hr
      | some q =>
        cases hres : findA results fh with
        | none =>
          rw [cpd_loop_cons_create rest known results hlog hh hprev hres]
          apply ih _ _ _ hrecr hk1
          intro h g hg
          rcases List.mem_append.mp hg with hg1 | hg1
          · exact hr h g hg1
          · simp at hg1
            obtain ⟨hq1, m1, hm1⟩ := hk fh q (findA_mem hprev)
            obtain ⟨e1, e2⟩ := hg1
            subst e1
            subst e2
            refine ⟨rfl, by simp, ?_⟩
            intro p hp
            rcases (by simpa using hp : p = q ∨ p = data.path) with rfl | rfl
            · exact ⟨hq1, m1, hm1, hsc _ _ _ _ _ hq1 hh hm1 hrecd⟩
            · exact ⟨hh, data.meta, hrecd, rfl⟩
        | some g0 =>
          have hres2 : (findA results fh).isSome := by simp [hres]
          rw [cpd_loop_cons_push rest known results hlog hh hprev hres2]
          apply ih _ _ _ hrecr hk1
          intro h g hg
          rcases mem_modifyA hg with hg1 | ⟨v, hv, he⟩
          · exact hr h g hg1
          · obtain ⟨gh, glen, gmem⟩ := hr fh v hv
            injection he with e1 e2
            subst e1
            subst e2
            refine ⟨gh, ?_, ?_⟩
            · simp
              omega
            · intro p hp
              rcases (by simpa using hp : p ∈ v.files ∨ p = data.path) with hp1 | rfl
              · exact gmem p hp1
              · have hpos : 0 < v.files.length := by omega
                obtain ⟨q0, hq0⟩ := List.exists_mem_of_length_pos hpos
                obtain ⟨b1, m3, b2, b3⟩ := gmem q0 hq0
                exact ⟨hh, data.meta, hrecd, (hsc _ _ _ _ _ hh b1 hrecd b2).trans b3⟩

theorem check_path_duplicates_good {fs : FS} {df : DupeFinder} {paths : List DirData}
    {results : List (String × Duplicate)} (hsc : HSC fs)
    (hrec : ∀ r ∈ paths, fs.meta r.path = some r.meta)
    (hff : ∀ ff, df.find_file = some ff →
      fs.hashOf ff.data.path = some ff.hash ∧ fs.meta ff.data.path = some ff.data.meta)
    (hr : ResultsGood fs results) :
    ResultsGood fs (check_path_duplicates fs df paths results).1 := by
  cases hf : df.find_file with
  | none =>
    rw [check_path_duplicates_full paths results hf]
    exact cpd_good hsc paths [] results [] hrec (fun h p hp => by simp at hp) hr
  | some ff =>
    obtain ⟨h1, h2⟩ := hff ff hf
    rw [check_path_duplicates_target paths results hf]
    apply cpd_good hsc _ _ _ _ (fun r hrr => hrec r (List.drop_subset 1 paths hrr)) _ hr
    intro h p hp
    simp at hp
    obtain ⟨e1, e2⟩ := hp
    subst e1
    subst e2
    exact ⟨h1, ff.data.meta, h2⟩

theorem cd_good {fs : FS} {df : DupeFinder} (hsc : HSC fs) (hst : SIndexInv fs df)
    (hff : ∀ ff, df.find_file = some ff →
      fs.hashOf ff.data.path = some ff.hash ∧ fs.meta ff.data.path = some ff.data.meta) :
    ∀ (sizes : List Nat) (results : List (String × Duplicate)) (hlog : List String),
      ResultsGood fs results → ResultsGood fs (cd_loop fs df sizes results hlog).1 := by
  intro sizes
  induction sizes with
  | nil =>
    intro results hlog hr
    simpa [cd_loop_nil] using hr
  | cons s rest ih =>
    intro results hlog hr
    cases hfind : findA df.file_sizes s with
    | none =>
      rw [cd_loop_cons_none rest results hlog hfind]
      exact ih _ _ hr
    | some paths =>
      rw [cd_loop_cons_some rest results hlog hfind]
      apply ih
      apply check_path_duplicates_good hsc _ hff hr
      intro r hrr
      have hrm := (hst.1 s paths hfind).2 r hrr
      rcases hrm.1 with hok | ⟨ff2, hff2, he⟩
      · exact hok.1
      · subst he
        exact (hff ff2 hff2).2

theorem check_duplicates_good {fs : FS} {df : DupeFinder} (hsc : HSC fs)
    (hst : SIndexInv fs df)
    (hff : ∀ ff, df.find_file = some ff →
      fs.hashOf ff.data.path = some ff.hash ∧ fs.meta ff.data.path = some ff.data.meta) :
    ResultsGood fs (check_duplicates fs df).1 :=
  cd_good hsc hst hff df.duplicate_file_sizes [] [] (fun h g hg => by simp at hg)

/-! ### Projection equations for the engine entry points -/

theorem reset_state_mk0 (dirs : List String) (recurse : Bool) :
    reset_state (DupeFinder.mk0 dirs recurse) = DupeFinder.mk0 dirs recurse := rfl

theorem run_result (fs : FS) (fuel : Nat) (df : DupeFinder) :
    (run fs fuel df).result =
      (check_duplicates fs (build_directories fs fuel (reset_state df)).1).1 := rfl

theorem run_state (fs : FS) (fuel : Nat) (df : DupeFinder) :
    (run fs fuel df).state = (build_directories fs fuel (reset_state df)).1 := rfl

theorem run_dirLog (fs : FS) (fuel : Nat) (df : DupeFinder) :
    (run fs fuel df).dirLog = (build_directories fs fuel (reset_state df)).2 := rfl

theorem run_hashLog (fs : FS) (fuel : Nat) (df : DupeFinder) :
    (run fs fuel df).hashLog =
      (check_duplicates fs (build_directories fs fuel (reset_state df)).1).2 := rfl

theorem run_for_file_eq_err {fs : FS} {path : String} (fuel : Nat) (df : DupeFinder)
    (h : FindFile.new fs path = none) :
    run_for_file fs fuel df path =
      { result := Except.error (), state := reset_state df, dirLog := [], hashLog := [] } := by
  simp [run_for_file, h]

theorem run_for_file_eq_ok {fs : FS} {path : String} {ff : FindFile} (fuel : Nat)
    (df : DupeFinder) (h : FindFile.new fs path = some ff) :
    run_for_file fs fuel df path = run_for_file_core fs fuel (reset_state df) ff := by
  simp [run_for_file, h]

/-- The seeded engine state of a target-file run. -/
def seed_state (df : DupeFinder) (ff : FindFile) : DupeFinder :=
  insert_find_file_size { df with find_file := some ff }

theorem run_for_file_core_spec (fs : FS) (fuel : Nat) (df : DupeFinder) (ff : FindFile) :
    (run_for_file_core fs fuel df ff).state =
        (build_directories fs fuel (seed_state df ff)).1 ∧
      (run_for_file_core fs fuel df ff).dirLog =
        (build_directories fs fuel (seed_state df ff)).2 ∧
      (run_for_file_core fs fuel df ff).hashLog =
        (check_duplicates fs (build_directories fs fuel (seed_state df ff)).1).2 ∧
      (run_for_file_core fs fuel df ff).result =
        Except.ok (findA
          (check_duplicates fs (build_directories fs fuel (seed_state df ff)).1).1 ff.hash) := by
  unfold run_for_file_core seed_state
  cases h : findA
      (check_duplicates fs
        (build_directories fs fuel (insert_find_file_size { df with find_file := some ff })).1).1
      ff.hash with
  | none => simp [h]
  | some v => simp [h]

theorem insert_find_file_size_frame (df : DupeFinder) :
    (insert_find_file_size df).directories = df.directories ∧
      (insert_find_file_size df).checked_directories = df.checked_directories ∧
      (insert_find_file_size df).duplicate_file_sizes = df.duplicate_file_sizes ∧
      (insert_find_file_size df).follow_subdirs = df.follow_subdirs ∧
      (insert_find_file_size df).find_file = df.find_file := by
  cases h : df.find_file <;> simp [insert_find_file_size, h]

theorem seed_state_find_file (df : DupeFinder) (ff : FindFile) :
    (seed_state df ff).find_file = some ff := by
  unfold seed_state
  rw [(insert_find_file_size_frame _).2.2.2.2]

theorem SIndexInv_seed {fs : FS} {path : String} {ff : FindFile} {df : DupeFinder}
    (hempty : df.file_sizes = []) (hdup : df.duplicate_file_sizes = [])
    (hnew : FindFile.new fs path = some ff) :
    SIndexInv fs (seed_state df ff) := by
  obtain ⟨hh, hm, hp, hs⟩ := FindFile_new_spec hnew
  have hfs : (seed_state df ff).file_sizes = [(ff.data.size, [ff.data])] := by
    simp [seed_state, insert_find_file_size, hempty, insertReplace]
  have hffp : (seed_state df ff).find_file = some ff := seed_state_find_file df ff
  have hdupp : (seed_state df ff).duplicate_file_sizes = df.duplicate_file_sizes := by
    simp [seed_state, insert_find_file_size]
  constructor
  · intro s b hfind2
    rw [hfs] at hfind2
    by_cases he : ff.data.size = s
    · simp [findA, he] at hfind2
      subst hfind2
      refine ⟨by simp, ?_⟩
      intro r hr
      simp at hr
      subst hr
      rw [hffp]
      exact ⟨Or.inr ⟨ff, rfl, rfl⟩, hs.symm.trans he⟩
    · simp [findA, he] at hfind2
  · intro s hs2
    rw [hdupp, hdup] at hs2
    simp at hs2

/-- C1: every duplicate group returned by run (and any group returned by
run_for_file) has at least two member paths, all members carry the group
digest and the group byte size on the filesystem (so two same-size
records with different digests, or records from different size buckets,
are never combined), assuming digests determine byte lengths. -/
theorem C1_duplicate_group_invariants (fs : FS) (fuel : Nat) (dirs : List String)
    (recurse : Bool) (hsc : HSC fs) :
    (∀ h g, (h, g) ∈ (run fs fuel (DupeFinder.mk0 dirs recurse)).result →
      g.hash = h ∧ 2 ≤ g.files.length ∧
        ∀ p ∈ g.files, fs.hashOf p = some g.hash ∧
          ∃ m, fs.meta p = some m ∧ m.len = g.size) ∧
    (∀ path g,
      (run_for_file fs fuel (DupeFinder.mk0 dirs recurse) path).result =
          Except.ok (some g) →
      2 ≤ g.files.length ∧
        ∀ p ∈ g.files, fs.hashOf p = some g.hash ∧
          ∃ m, fs.meta p = some m ∧ m.len = g.size) := by
  constructor
  · intro h g hg
    rw [run_result, reset_state_mk0] at hg
    have hst := build_directories_SIndexInv fs fuel _ (SIndexInv_mk0 fs dirs recurse)
    have hfr : (build_directories fs fuel (DupeFinder.mk0 dirs recurse)).1.find_file = none :=
      (build_directories_frame fs fuel _).2.2
    have hgood := check_duplicates_good hsc hst
      (fun ff e => by rw [hfr] at e; simp at e)
    obtain ⟨e1, e2, e3⟩ := hgood h g hg
    refine ⟨e1, e2, ?_⟩
    intro p hp
    obtain ⟨a1, m1, a2, a3⟩ := e3 p hp
    exact ⟨e1.symm ▸ a1, m1, a2, a3⟩
  · intro path g hres
    cases hffn : FindFile.new fs path with
    | none =>
      rw [run_for_file_eq_err fuel _ hffn] at hres
      simp at hres
    | some ff =>
      rw [run_for_file_eq_ok fuel _ hffn, reset_state_mk0] at hres
      obtain ⟨hs1, hs2, hs3, hs4⟩ :=
        run_for_file_core_spec fs fuel (DupeFinder.mk0 dirs recurse) ff
      rw [hs4] at hres
      have hfind : findA
          (check_duplicates fs
            (build_directories fs fuel (seed_state (DupeFinder.mk0 dirs recurse) ff)).1).1
          ff.hash = some g := by
        injection hres with hres
      obtain ⟨hh, hm, hp, hsz⟩ := FindFile_new_spec hffn
      have hseed : SIndexInv fs (seed_state (DupeFinder.mk0 dirs recurse) ff) :=
        SIndexInv_seed (by simp [DupeFinder.mk0]) (by simp [DupeFinder.mk0]) hffn
      have hst := build_directories_SIndexInv fs fuel _ hseed
      have hfr : (build_directories fs fuel
          (seed_state (DupeFinder.mk0 dirs recurse) ff)).1.find_file = some ff :=
        ((build_directories_frame fs fuel _).2.2).trans (seed_state_find_file _ _)
      have hgood := check_duplicates_good hsc hst
        (fun ff2 e => by
          rw [hfr] at e
          injection e with e
          subst e
          exact ⟨hp ▸ hh, hp ▸ hm⟩)
      obtain ⟨e1, e2, e3⟩ := hgood ff.hash g (findA_mem hfind)
      refine ⟨e2, ?_⟩
      intro p hp2
      obtain ⟨a1, m1, a2, a3⟩ := e3 p hp2
      exact ⟨e1.symm ▸ a1, m1, a2, a3⟩

/-! ### Error behaviour of run_for_file -/

theorem FindFile.new_eq_none_iff {fs : FS} {path : String} :
    FindFile.new fs path = none ↔ fs.hashOf path = none ∨ fs.meta path = none := by
  unfold FindFile.new DirData.new
  cases hh : fs.hashOf path <;> cases hm : fs.meta path <;> simp [hh, hm]

/-- C2: run_for_file fails with an I/O error exactly when fingerprinting
or stat-ing the target path fails (in particular for every missing
path), and in that case the call stops before walking any root: the
state is exactly the reset state, no directory listing is requested, no
fingerprint is computed during resolution, and no result is produced.
run itself returns a plain map and cannot fail, so this is the only
error exit of the engine. -/
theorem C2_run_for_file_error_exactly_on_identity_failure (fs : FS) (fuel : Nat)
    (df : DupeFinder) (path : String) :
    ((run_for_file fs fuel df path).result = Except.error () ↔
      (fs.hashOf path = none ∨ fs.meta path = none)) ∧
    ((fs.hashOf path = none ∨ fs.meta path = none) →
      run_for_file fs fuel df path =
        { result := Except.error (), state := reset_state df, dirLog := [],
          hashLog := [] }) := by
  cases hffn : FindFile.new fs path with
  | none =>
    have hiff := FindFile.new_eq_none_iff.mp hffn
    rw [run_for_file_eq_err fuel df hffn]
    exact ⟨⟨fun _ => hiff, fun _ => rfl⟩, fun _ => rfl⟩
  | some ff =>
    have hne : ¬(fs.hashOf path = none ∨ fs.meta path = none) := by
      intro hc
      have h2 := FindFile.new_eq_none_iff.mpr hc
      rw [hffn] at h2
      simp at h2
    rw [run_for_file_eq_ok fuel df hffn]
    obtain ⟨_, _, _, hs4⟩ := run_for_file_core_spec fs fuel (reset_state df) ff
    constructor
    · constructor
      · intro he
        rw [hs4] at he
        simp at he
      · intro hc
        exact absurd hc hne
    · intro hc
      exact absurd hc hne

/-! ### Concrete filesystems used as witnesses -/

/-- File metadata of a regular file of byte length n. -/
def mFile (n : Nat) : FileMeta := { is_file := true, is_dir := false, len := n }

/-- File metadata of a directory. -/
def mDir : FileMeta := { is_file := false, is_dir := true, len := 0 }

/-- A root directory r holding only the subdirectory s, which holds two
byte-identical files of length 100. -/
def fs9 : FS where
  listDir := fun d =>
    if d = "r" then some ["s"] else if d = "s" then some ["s/a", "s/b"] else none
  meta := fun p =>
    if p = "s" then some mDir
    else if p = "s/a" then some (mFile 100)
    else if p = "s/b" then some (mFile 100)
    else none
  hashOf := fun p =>
    if p = "s/a" then some "H" else if p = "s/b" then some "H" else none

theorem HSC_fs9 : HSC fs9 := by
  intro p q h mp mq h1 h2 h3 h4
  have hp2 : p = "s/a" ∨ p = "s/b" := by
    by_cases e1 : p = "s/a"
    · exact Or.inl e1
    · by_cases e2 : p = "s/b"
      · exact Or.inr e2
      · simp [fs9, e1, e2] at h1
  have hq2 : q = "s/a" ∨ q = "s/b" := by
    by_cases e1 : q = "s/a"
    · exact Or.inl e1
    · by_cases e2 : q = "s/b"
      · exact Or.inr e2
      · simp [fs9, e1, e2] at h2
  rcases hp2 with rfl | rfl <;> rcases hq2 with rfl | rfl <;>
    simp [fs9, mFile] at h3 h4 <;> rw [← h3, ← h4]

/-- A search target base/a of length 100 with two byte-identical files
in the single root directory dupes. -/
def fsF : FS where
  listDir := fun d => if d = "dupes" then some ["dupes/x", "dupes/y"] else none
  meta := fun p =>
    if p = "base/a" then some (mFile 100)
    else if p = "dupes/x" then some (mFile 100)
    else if p = "dupes/y" then some (mFile 100)
    else none
  hashOf := fun p =>
    if p = "base/a" then some "H"
    else if p = "dupes/x" then some "H"
    else if p = "dupes/y" then some "H"
    else none

theorem HSC_fsF : HSC fsF := by
  intro p q h mp mq h1 h2 h3 h4
  have hp2 : p = "base/a" ∨ p = "dupes/x" ∨ p = "dupes/y" := by
    by_cases e1 : p = "base/a"
    · exact Or.inl e1
    · by_cases e2 : p = "dupes/x"
      · exact Or.inr (Or.inl e2)
      · by_cases e3 : p = "dupes/y"
        · exact Or.inr (Or.inr e3)
        · simp [fsF, e1, e2, e3] at h1
  have hq2 : q = "base/a" ∨ q = "dupes/x" ∨ q = "dupes/y" := by
    by_cases e1 : q = "base/a"
    · exact Or.inl e1
    · by_cases e2 : q = "dupes/x"
      · exact Or.inr (Or.inl e2)
      · by_cases e3 : q = "dupes/y"
        · exact Or.inr (Or.inr e3)
        · simp [fsF, e1, e2, e3] at h2
  rcases hp2 with rfl | rfl | rfl <;> rcases hq2 with rfl | rfl | rfl <;>
    simp [fsF, mFile] at h3 h4 <;> rw [← h3, ← h4]

/-- A filesystem holding a single zero-byte file t and no listable
directory. -/
def fsZ : FS where
  listDir := fun _ => none
  meta := fun p => if p = "t" then some (mFile 0) else none
  hashOf := fun p => if p = "t" then some "E" else none

theorem C1_duplicate_group_invariants_witness :
    HSC fs9 ∧
      2 ≤ (Duplicate.mk "H" ["s/a", "s/b"] 100).files.length ∧
      (run_for_file fsF 2 (DupeFinder.mk0 ["dupes"] false) "base/a").result =
        Except.ok (some (Duplicate.mk "H" ["base/a", "dupes/x", "dupes/y"] 100)) :=
  ⟨HSC_fs9,
    ((C1_duplicate_group_invariants fs9 3 ["r"] true HSC_fs9).1 "H"
      (Duplicate.mk "H" ["s/a", "s/b"] 100) (by decide)).2.1,
    by rfl⟩

theorem C2_run_for_file_error_exactly_on_identity_failure_witness :
    (run_for_file fsF 2 (DupeFinder.mk0 ["dupes"] false) "nope").result =
      Except.error () :=
  (C2_run_for_file_error_exactly_on_identity_failure fsF 2
    (DupeFinder.mk0 ["dupes"] false) "nope").1.mpr (Or.inl (by decide))

/-! ### The visited set through the walk -/

theorem build_entries_checked (fs : FS) (es : List String) (df : DupeFinder)
    (sd : List String) :
    (build_entries fs df es sd).1.checked_directories = df.checked_directories :=
  build_entries_pres fs (fun x => x.checked_directories = df.checked_directories)
    (fun d1 data hq _ => ((insert_size_frame d1 data).2.2.2).trans hq) es df sd rfl

theorem build_directory_contents_checked {fs : FS} {df df2 : DupeFinder} {d : String}
    {subs : List String} (h : build_directory_contents fs df d = some (df2, subs)) :
    df2.checked_directories = df.checked_directories := by
  unfold build_directory_contents at h
  cases hl : fs.listDir d with
  | none => rw [hl] at h; simp at h
  | some es =>
    rw [hl] at h
    simp at h
    have h2 := build_entries_checked fs es df []
    rw [h] at h2
    exact h2

theorem process_dirs_checked_mono (fs : FS) :
    ∀ (dirs : List String) (df : DupeFinder) (next log : List String),
      df.checked_directories ⊆ (process_dirs fs df dirs next log).1.checked_directories := by
  intro dirs
  induction dirs with
  | nil =>
    intro df next log
    simp [process_dirs_nil]
  | cons d rest ih =>
    intro df next log
    by_cases hc : d ∈ df.checked_directories
    · rw [process_dirs_cons_mem rest next log hc]
      exact ih df next log
    · have hsub : df.checked_directories ⊆
          insertS df.checked_directories d := fun x hx => mem_insertS.mpr (Or.inl hx)
      cases hbd : build_directory_contents fs
          { df with checked_directories := insertS df.checked_directories d } d with
      | none =>
        rw [process_dirs_cons_err rest next log hc hbd]
        exact hsub.trans
          (ih { df with checked_directories := insertS df.checked_directories d } next
            (log ++ [d]))
      | some pr =>
        obtain ⟨df2, subs⟩ := pr
        rw [process_dirs_cons_ok rest next log hc hbd]
        have hck := build_directory_contents_checked hbd
        refine hsub.trans ?_
        intro x hx
        exact ih df2 (next ++ subs) (log ++ [d]) (by rw [hck]; exact hx)

theorem build_loop_checked_mono (fs : FS) :
    ∀ (fuel : Nat) (df : DupeFinder) (cds log : List String),
      df.checked_directories ⊆ (build_loop fs fuel df cds log).1.checked_directories := by
  intro fuel
  induction fuel with
  | zero =>
    intro df cds log
    simp [build_loop_zero]
  | succ n ih =>
    intro df cds log
    cases cds with
    | nil => simp [build_loop_succ_nil]
    | cons d rest =>
      cases hp : process_dirs fs df (d :: rest) [] log with
      | mk df1 pr =>
        obtain ⟨next, log1⟩ := pr
        rw [build_loop_succ_cons n log hp]
        have h1 := process_dirs_checked_mono fs (d :: rest) df [] log
        rw [hp] at h1
        exact h1.trans (ih df1 next log1)

theorem process_dirs_checked_mem (fs : FS) :
    ∀ (dirs : List String) (df : DupeFinder) (next log : List String) (d : String),
      d ∈ dirs → d ∈ (process_dirs fs df dirs next log).1.checked_directories := by
  intro dirs
  induction dirs with
  | nil =>
    intro df next log d hd
    simp at hd
  | cons d0 rest ih =>
    intro df next log d hd
    rcases List.mem_cons.mp hd with rfl | hd2
    · by_cases hc : d ∈ df.checked_directories
      · rw [process_dirs_cons_mem rest next log hc]
        exact process_dirs_checked_mono fs rest df next log hc
      · cases hbd : build_directory_contents fs
            { df with checked_directories := insertS df.checked_directories d } d with
        | none =>
          rw [process_dirs_cons_err rest next log hc hbd]
          exact process_dirs_checked_mono fs rest _ next (log ++ [d])
            (self_mem_insertS _ _)
        | some pr =>
          obtain ⟨df2, subs⟩ := pr
          rw [process_dirs_cons_ok rest next log hc hbd]
          apply process_dirs_checked_mono fs rest df2 (next ++ subs) (log ++ [d])
          rw [build_directory_contents_checked hbd]
          exact self_mem_insertS _ _
    · by_cases hc : d0 ∈ df.checked_directories
      · rw [process_dirs_cons_mem rest next log hc]
        exact ih df next log d hd2
      · cases hbd : build_directory_contents fs
            { df with checked_directories := insertS df.checked_directories d0 } d0 with
        | none =>
          rw [process_dirs_cons_err rest next log hc hbd]
          exact ih _ next (log ++ [d0]) d hd2
        | some pr =>
          obtain ⟨df2, subs⟩ := pr
          rw [process_dirs_cons_ok rest next log hc hbd]
          exact ih df2 (next ++ subs) (log ++ [d0]) d hd2

theorem build_loop_checked_roots {fs : FS} {n : Nat} {df : DupeFinder} {cds : List String}
    {d : String} (log : List String) (hd : d ∈ cds) :
    d ∈ (build_loop fs (n + 1) df cds log).1.checked_directories := by
  cases cds with
  | nil => simp at hd
  | cons c rest =>
    cases hp : process_dirs fs df (c :: rest) [] log with
    | mk df1 pr =>
      obtain ⟨next, log1⟩ := pr
      rw [build_loop_succ_cons n log hp]
      have h1 := process_dirs_checked_mem fs (c :: rest) df [] log d hd
      rw [hp] at h1
      exact build_loop_checked_mono fs n df1 next log1 h1

theorem DupeFinder.eq_of_fields {a b : DupeFinder} (h1 : a.directories = b.directories)
    (h2 : a.file_sizes = b.file_sizes) (h3 : a.checked_directories = b.checked_directories)
    (h4 : a.duplicate_file_sizes = b.duplicate_file_sizes)
    (h5 : a.follow_subdirs = b.follow_subdirs) (h6 : a.find_file = b.find_file) : a = b := by
  cases a
  cases b
  simp at h1 h2 h3 h4 h5 h6
  simp [h1, h2, h3, h4, h5, h6]

/-- C7: the reset at the start of the second run restores the engine to
its freshly constructed state, so running twice in succession on an
unchanged filesystem returns equal result maps. -/
theorem C7_rerun_after_reset_idempotent (fs : FS) (fuel : Nat) (dirs : List String)
    (recurse : Bool) :
    (run fs fuel ((run fs fuel (DupeFinder.mk0 dirs recurse)).state)).result =
        (run fs fuel (DupeFinder.mk0 dirs recurse)).result ∧
      reset_state ((run fs fuel (DupeFinder.mk0 dirs recurse)).state) =
        DupeFinder.mk0 dirs recurse := by
  have hkey : reset_state ((run fs fuel (DupeFinder.mk0 dirs recurse)).state) =
      DupeFinder.mk0 dirs recurse := by
    cases fuel with
    | zero => rfl
    | succ n =>
      cases dirs with
      | nil => rfl
      | cons d rest =>
        have hmem : d ∈ (run fs (n + 1)
            (DupeFinder.mk0 (d :: rest) recurse)).state.checked_directories := by
          rw [run_state, reset_state_mk0]
          exact build_loop_checked_roots [] (List.mem_cons_self _ _)
        have hne : 0 < (run fs (n + 1)
            (DupeFinder.mk0 (d :: rest) recurse)).state.checked_directories.length :=
          List.length_pos.mpr (List.ne_nil_of_mem hmem)
        have hfr := build_directories_frame fs (n + 1) (DupeFinder.mk0 (d :: rest) recurse)
        unfold reset_state
        rw [if_pos hne]
        exact DupeFinder.eq_of_fields hfr.1 rfl rfl rfl hfr.2.1 rfl
  refine ⟨?_, hkey⟩
  show (run_core fs fuel (reset_state ((run fs fuel (DupeFinder.mk0 dirs recurse)).state))).result =
    (run_core fs fuel (reset_state (DupeFinder.mk0 dirs recurse))).result
  rw [hkey, reset_state_mk0]

/-! ### The enumeration log -/

theorem process_dirs_log_inv (fs : FS) :
    ∀ (dirs : List String) (df : DupeFinder) (next log : List String),
      (∀ x ∈ log, x ∈ df.checked_directories) → log.Nodup →
      (∀ x ∈ (process_dirs fs df dirs next log).2.2,
          x ∈ (process_dirs fs df dirs next log).1.checked_directories) ∧
        (process_dirs fs df dirs next log).2.2.Nodup := by
  intro dirs
  induction dirs with
  | nil =>
    intro df next log hsub hnd
    simpa [process_dirs_nil] using ⟨hsub, hnd⟩
  | cons d rest ih =>
    intro df next log hsub hnd
    by_cases hc : d ∈ df.checked_directories
    · rw [process_dirs_cons_mem rest next log hc]
      exact ih df next log hsub hnd
    · have hdlog : d ∉ log := fun hx => hc (hsub d hx)
      have hnd1 : (log ++ [d]).Nodup := by
        simp [List.nodup_append, hnd, hdlog]
      cases hbd : build_directory_contents fs
          { df with checked_directories := insertS df.checked_directories d } d with
      | none =>
        rw [process_dirs_cons_err rest next log hc hbd]
        apply ih _ next (log ++ [d]) _ hnd1
        intro x hx
        rcases List.mem_append.mp hx with hx1 | hx1
        · exact mem_insertS.mpr (Or.inl (hsub x hx1))
        · simp at hx1
          subst hx1
          exact self_mem_insertS _ _
      | some pr =>
        obtain ⟨df2, subs⟩ := pr
        rw [process_dirs_cons_ok rest next log hc hbd]
        apply ih df2 (next ++ subs) (log ++ [d]) _ hnd1
        intro x hx
        rw [build_directory_contents_checked hbd]
        rcases List.mem_append.mp hx with hx1 | hx1
        · exact mem_insertS.mpr (Or.inl (hsub x hx1))
        · simp at hx1
          subst hx1
          exact self_mem_insertS _ _

theorem build_loop_log_inv (fs : FS) :
    ∀ (fuel : Nat) (df : DupeFinder) (cds log : List String),
      (∀ x ∈ log, x ∈ df.checked_directories) → log.Nodup →
      (build_loop fs fuel df cds log).2.Nodup := by
  intro fuel
  induction fuel with
  | zero =>
    intro df cds log _ hnd
    simpa [build_loop_zero] using hnd
  | succ n ih =>
    intro df cds log hsub hnd
    cases cds with
    | nil => simpa [build_loop_succ_nil] using hnd
    | cons d rest =>
      cases hp : process_dirs fs df (d :: rest) [] log with
      | mk df1 pr =>
        obtain ⟨next, log1⟩ := pr
        rw [build_loop_succ_cons n log hp]
        have h1 := process_dirs_log_inv fs (d :: rest) df [] log hsub hnd
        rw [hp] at h1
        exact ih df1 next log1 h1.1 h1.2

theorem process_dirs_log_extend (fs : FS) :
    ∀ (dirs : List String) (df : DupeFinder) (next log : List String),
      ∃ t, (process_dirs fs df dirs next log).2.2 = log ++ t := by
  intro dirs
  induction dirs with
  | nil =>
    intro df next log
    exact ⟨[], by simp [process_dirs_nil]⟩
  | cons d rest ih =>
    intro df next log
    by_cases hc : d ∈ df.checked_directories
    · rw [process_dirs_cons_mem rest next log hc]
      exact ih df next log
    · cases hbd : build_directory_contents fs
          { df with checked_directories := insertS df.checked_directories d } d with
      | none =>
        rw [process_dirs_cons_err rest next log hc hbd]
        obtain ⟨t, ht⟩ := ih { df with checked_directories := insertS df.checked_directories d }
          next (log ++ [d])
        refine ⟨[d] ++ t, ?_⟩
        rw [ht]
        simp
      | some pr =>
        obtain ⟨df2, subs⟩ := pr
        rw [process_dirs_cons_ok rest next log hc hbd]
        obtain ⟨t, ht⟩ := ih df2 (next ++ subs) (log ++ [d])
        refine ⟨[d] ++ t, ?_⟩
        rw [ht]
        simp

theorem build_loop_log_extend (fs : FS) :
    ∀ (fuel : Nat) (df : DupeFinder) (cds log : List String),
      ∃ t, (build_loop fs fuel df cds log).2 = log ++ t := by
  intro fuel
  induction fuel with
  | zero =>
    intro df cds log
    exact ⟨[], by simp [build_loop_zero]⟩
  | succ n ih =>
    intro df cds log
    cases cds with
    | nil => exact ⟨[], by simp [build_loop_succ_nil]⟩
    | cons d rest =>
      cases hp : process_dirs fs df (d :: rest) [] log with
      | mk df1 pr =>
        obtain ⟨next, log1⟩ := pr
        rw [build_loop_succ_cons n log hp]
        obtain ⟨t1, ht1⟩ := process_dirs_log_extend fs (d :: rest) df [] log
        rw [hp] at ht1
        simp at ht1
        obtain ⟨t2, ht2⟩ := ih df1 next log1
        refine ⟨t1 ++ t2, ?_⟩
        rw [ht2, ht1]
        simp

theorem process_dirs_log_root (fs : FS) :
    ∀ (dirs : List String) (df : DupeFinder) (next log : List String) (d : String),
      d ∈ dirs → d ∈ df.checked_directories ∨ d ∈ (process_dirs fs df dirs next log).2.2 := by
  intro dirs
  induction dirs with
  | nil =>
    intro df next log d hd
    simp at hd
  | cons d0 rest ih =>
    intro df next log d hd
    rcases List.mem_cons.mp hd with rfl | hd2
    · by_cases hc : d ∈ df.checked_directories
      · exact Or.inl hc
      · right
        cases hbd : build_directory_contents fs
            { df with checked_directories := insertS df.checked_directories d } d with
        | none =>
          rw [process_dirs_cons_err rest next log hc hbd]
          obtain ⟨t, ht⟩ := process_dirs_log_extend fs rest
            { df with checked_directories := insertS df.checked_directories d } next (log ++ [d])
          rw [ht]
          simp
        | some pr =>
          obtain ⟨df2, subs⟩ := pr
          rw [process_dirs_cons_ok rest next log hc hbd]
          obtain ⟨t, ht⟩ := process_dirs_log_extend fs rest df2 (next ++ subs) (log ++ [d])
          rw [ht]
          simp
    · by_cases hc : d0 ∈ df.checked_directories
      · rw [process_dirs_cons_mem rest next log hc]
        exact ih df next log d hd2
      · cases hbd : build_directory_contents fs
            { df with checked_directories := insertS df.checked_directories d0 } d0 with
        | none =>
          rw [process_dirs_cons_err rest next log hc hbd]
          rcases ih { df with checked_directories := insertS df.checked_directories d0 }
            next (log ++ [d0]) d hd2 with h1 | h1
          · rcases mem_insertS.mp h1 with h2 | h2
            · exact Or.inl h2
            · right
              obtain ⟨t, ht⟩ := process_dirs_log_extend fs rest
                { df with checked_directories := insertS df.checked_directories d0 } next
                (log ++ [d0])
              rw [ht, h2]
              simp
          · exact Or.inr h1
        | some pr =>
          obtain ⟨df2, subs⟩ := pr
          rw [process_dirs_cons_ok rest next log hc hbd]
          rcases ih df2 (next ++ subs) (log ++ [d0]) d hd2 with h1 | h1
          · rw [build_directory_contents_checked hbd] at h1
            rcases mem_insertS.mp h1 with h2 | h2
            · exact Or.inl h2
            · right
              obtain ⟨t, ht⟩ := process_dirs_log_extend fs rest df2 (next ++ subs) (log ++ [d0])
              rw [ht, h2]
              simp
          · exact Or.inr h1

theorem build_loop_log_root {fs : FS} {n : Nat} {df : DupeFinder} {cds : List String}
    {d : String} (log : List String) (hd : d ∈ cds) :
    d ∈ df.checked_directories ∨ d ∈ (build_loop fs (n + 1) df cds log).2 := by
  cases cds with
  | nil => simp at hd
  | cons c rest =>
    cases hp : process_dirs fs df (c :: rest) [] log with
    | mk df1 pr =>
      obtain ⟨next, log1⟩ := pr
      rw [build_loop_succ_cons n log hp]
      rcases process_dirs_log_root fs (c :: rest) df [] log d hd with h1 | h1
      · exact Or.inl h1
      · rw [hp] at h1
        right
        obtain ⟨t, ht⟩ := build_loop_log_extend fs n df1 next log1
        rw [ht]
        exact List.mem_append.mpr (Or.inl h1)

/-- C4: within one run every directory is listed at most once, and every
configured root directory is listed exactly once (provided at least one
worklist wave runs), no matter how often it occurs among the roots or as
a recursively discovered subdirectory. -/
theorem C4_directory_enumerated_at_most_once (fs : FS) (fuel : Nat) (dirs : List String)
    (recurse : Bool) :
    (∀ d, ((run fs fuel (DupeFinder.mk0 dirs recurse)).dirLog).count d ≤ 1) ∧
      (1 ≤ fuel → ∀ d ∈ dirs,
        ((run fs fuel (DupeFinder.mk0 dirs recurse)).dirLog).count d = 1) := by
  have hnd : ((run fs fuel (DupeFinder.mk0 dirs recurse)).dirLog).Nodup := by
    rw [run_dirLog, reset_state_mk0]
    exact build_loop_log_inv fs fuel (DupeFinder.mk0 dirs recurse) dirs []
      (fun x hx => by simp at hx) (by simp)
  constructor
  · exact fun d => List.nodup_iff_count_le_one.mp hnd d
  · intro hfuel d hd
    obtain ⟨n, rfl⟩ : ∃ n, fuel = n + 1 :=
      ⟨fuel - 1, by omega⟩
    have hmem : d ∈ (run fs (n + 1) (DupeFinder.mk0 dirs recurse)).dirLog := by
      rw [run_dirLog, reset_state_mk0]
      rcases @build_loop_log_root fs n (DupeFinder.mk0 dirs recurse) dirs d [] hd with h1 | h1
      · exact absurd h1 (List.not_mem_nil d)
      · exact h1
    exact List.count_eq_one_of_mem hnd hmem

/-! ### Zero-byte records in the Size Index -/

/-- C5 counterexample: for a zero-byte target file t, run_for_file
seeds the Size Index with the size-0 target record, so a record of byte
size 0 is inserted into the Size Index in target-file mode. -/
theorem C5_counterexample_zero_byte_target_is_indexed :
    ∃ b, findA (run_for_file fsZ 1 (DupeFinder.mk0 ["d"] false) "t").state.file_sizes 0 =
        some b ∧ ∃ r ∈ b, r.size = 0 :=
  ⟨[{ path := "t", meta := mFile 0, size := 0 }], by rfl,
    { path := "t", meta := mFile 0, size := 0 }, by simp, rfl⟩

/-- C5 amended: during the walk no record of byte size 0 is ever
inserted into the Size Index; in a full-scan run the final index
therefore holds no size-0 record at all, while in target-file mode the
only possible size-0 record is the seeded target record itself. -/
theorem C5_no_zero_size_records_except_seeded_target (fs : FS) (fuel : Nat)
    (dirs : List String) (recurse : Bool) :
    (∀ s b r, findA (run fs fuel (DupeFinder.mk0 dirs recurse)).state.file_sizes s = some b →
      r ∈ b → r.size ≠ 0) ∧
    (∀ path ff, FindFile.new fs path = some ff →
      ∀ s b r,
        findA (run_for_file fs fuel (DupeFinder.mk0 dirs recurse) path).state.file_sizes s =
          some b → r ∈ b → r.size ≠ 0 ∨ r = ff.data) := by
  constructor
  · intro s b r hfind hr
    rw [run_state, reset_state_mk0] at hfind
    have hst := build_directories_SIndexInv fs fuel _ (SIndexInv_mk0 fs dirs recurse)
    have hfr : (build_directories fs fuel (DupeFinder.mk0 dirs recurse)).1.find_file = none :=
      (build_directories_frame fs fuel _).2.2
    have hrec := (hst.1 s b hfind).2 r hr
    rcases hrec.1 with hok | ⟨ff2, hff2, _⟩
    · exact hok.2.2.2.1
    · rw [hfr] at hff2
      simp at hff2
  · intro path ff hffn s b r hfind hr
    rw [run_for_file_eq_ok fuel _ hffn, reset_state_mk0] at hfind
    rw [(run_for_file_core_spec fs fuel (DupeFinder.mk0 dirs recurse) ff).1] at hfind
    have hseed : SIndexInv fs (seed_state (DupeFinder.mk0 dirs recurse) ff) :=
      SIndexInv_seed (by simp [DupeFinder.mk0]) (by simp [DupeFinder.mk0]) hffn
    have hst := build_directories_SIndexInv fs fuel _ hseed
    have hfr : (build_directories fs fuel
        (seed_state (DupeFinder.mk0 dirs recurse) ff)).1.find_file = some ff :=
      ((build_directories_frame fs fuel _).2.2).trans (seed_state_find_file _ _)
    have hrec := (hst.1 s b hfind).2 r hr
    rcases hrec.1 with hok | ⟨ff2, hff2, he⟩
    · exact Or.inl hok.2.2.2.1
    · rw [hfr] at hff2
      injection hff2 with hff2
      subst hff2
      exact Or.inr he

/-! ### Non-recursive runs discard subdirectories -/

theorem mk0_directories (dirs : List String) (recurse : Bool) :
    (DupeFinder.mk0 dirs recurse).directories = dirs := rfl

theorem build_loop_empty_cds (fs : FS) (fuel : Nat) (df : DupeFinder) (log : List String) :
    build_loop fs fuel df [] log = (df, log) := by
  cases fuel <;> rfl

theorem build_entries_nofiles {fs : FS} {df : DupeFinder} (hrec : df.follow_subdirs = false) :
    ∀ (es sd : List String),
      (∀ p ∈ es, ∀ dd, DirData.new fs p = some dd → dd.meta.is_file = false) →
      build_entries fs df es sd = (df, sd) := by
  intro es
  induction es with
  | nil =>
    intro sd _
    rfl
  | cons p rest ih =>
    intro sd hno
    cases hd : DirData.new fs p with
    | none =>
      rw [build_entries_cons_err df rest sd hd]
      exact ih sd (fun q hq dd hdd => hno q (by simp [hq]) dd hdd)
    | some data =>
      have hf : data.meta.is_file = false := hno p (by simp) data hd
      rw [build_entries_cons_false rest hd (should_insert_nonrecursive_discards sd hrec hf)]
      exact ih sd (fun q hq dd hdd => hno q (by simp [hq]) dd hdd)

theorem process_dirs_nofiles {fs : FS} :
    ∀ (dirs : List String) (df : DupeFinder) (next log : List String),
      df.follow_subdirs = false →
      (∀ d ∈ dirs, ∀ es, fs.listDir d = some es →
        ∀ p ∈ es, ∀ dd, DirData.new fs p = some dd → dd.meta.is_file = false) →
      ∃ c l2, process_dirs fs df dirs next log =
        ({ df with checked_directories := c }, next, l2) := by
  intro dirs
  induction dirs with
  | nil =>
    intro df next log _ _
    exact ⟨df.checked_directories, log, by rw [process_dirs_nil]⟩
  | cons d rest ih =>
    intro df next log hrec hno
    by_cases hc : d ∈ df.checked_directories
    · rw [process_dirs_cons_mem rest next log hc]
      exact ih df next log hrec (fun q hq => hno q (by simp [hq]))
    · cases hl : fs.listDir d with
      | none =>
        have hbd : build_directory_contents fs
            { df with checked_directories := insertS df.checked_directories d } d = none := by
          unfold build_directory_contents
          rw [hl]
        rw [process_dirs_cons_err rest next log hc hbd]
        obtain ⟨c, l2, hpd⟩ := ih { df with checked_directories := insertS df.checked_directories d }
          next (log ++ [d]) hrec (fun q hq => hno q (by simp [hq]))
        exact ⟨c, l2, hpd⟩
      | some es =>
        have hbe : build_entries fs
            { df with checked_directories := insertS df.checked_directories d } es [] =
            ({ df with checked_directories := insertS df.checked_directories d }, []) :=
          @build_entries_nofiles fs
            { df with checked_directories := insertS df.checked_directories d } hrec es []
            (hno d (by simp) es hl)
        have hbd : build_directory_contents fs
            { df with checked_directories := insertS df.checked_directories d } d =
            some ({ df with checked_directories := insertS df.checked_directories d }, []) := by
          simp [build_directory_contents, hl, hbe]
        rw [process_dirs_cons_ok rest next log hc hbd]
        obtain ⟨c, l2, hpd⟩ := ih { df with checked_directories := insertS df.checked_directories d }
          (next ++ []) (log ++ [d]) hrec (fun q hq => hno q (by simp [hq]))
        refine ⟨c, l2, ?_⟩
        rw [hpd]
        simp

/-- C9: a non-recursive run over roots whose listed entries are all
non-files returns an empty result map (subdirectories are discarded by
the indexing predicate rather than queued), while a recursive run over
the concrete root r, whose only entry is the subdirectory s holding two
byte-identical files, returns that duplicate group. -/
theorem C9_nonrecursive_ignores_subdirectories :
    (∀ (fs : FS) (fuel : Nat) (dirs : List String),
      (∀ d ∈ dirs, ∀ es, fs.listDir d = some es →
        ∀ p ∈ es, ∀ dd, DirData.new fs p = some dd → dd.meta.is_file = false) →
      (run fs fuel (DupeFinder.mk0 dirs false)).result = []) ∧
    (∀ (df : DupeFinder) (data : DirData) (sd : List String),
      df.follow_subdirs = false → data.meta.is_file = false →
      should_insert_size df data sd = (false, sd)) ∧
    (run fs9 3 (DupeFinder.mk0 ["r"] false)).result = [] ∧
    (run fs9 3 (DupeFinder.mk0 ["r"] true)).result =
      [("H", { hash := "H", files := ["s/a", "s/b"], size := 100 })] := by
  refine ⟨?_, ?_, by rfl, by rfl⟩
  · intro fs fuel dirs hno
    cases fuel with
    | zero => rfl
    | succ n =>
      rw [run_result, reset_state_mk0]
      cases dirs with
      | nil => rfl
      | cons d rest =>
        obtain ⟨c, l2, hpd⟩ := process_dirs_nofiles (d :: rest)
          (DupeFinder.mk0 (d :: rest) false) [] [] rfl hno
        unfold build_directories
        rw [mk0_directories, build_loop_succ_cons n [] hpd, build_loop_empty_cds]
        rfl
  · intro df data sd hrec hf
    exact should_insert_nonrecursive_discards sd hrec hf

/-! ### The shape of the Size Index in target-file mode -/

/-- In target-file mode the Size Index always holds exactly one bucket:
the target size bucket, whose first record is the seeded target and
whose remaining records were accepted by the indexing predicate; any
candidate size is the target size, and the target size is a candidate
as soon as a walked record joined the bucket. -/
def FSInv (fs : FS) (ff : FindFile) (df : DupeFinder) : Prop :=
  ∃ rest, df.file_sizes = [(ff.data.size, ff.data :: rest)] ∧
    (∀ r ∈ rest, InsOK fs (some ff) r) ∧
    (∀ s ∈ df.duplicate_file_sizes, s = ff.data.size) ∧
    (rest ≠ [] → ff.data.size ∈ df.duplicate_file_sizes)

theorem insert_size_FSInv {fs : FS} {ff : FindFile} {df : DupeFinder} {data : DirData}
    (hq : FSInv fs ff df) (hok : InsOK fs (some ff) data) :
    FSInv fs ff (insert_size df data) := by
  obtain ⟨rest, hfs, hins, hdup, hne⟩ := hq
  have hkey : data.meta.len = ff.data.size := by
    rw [← hok.2.1]
    exact (hok.2.2.2.2 ff rfl).1
  have hsome : (findA df.file_sizes data.meta.len).isSome := by
    rw [hfs, hkey]
    simp [findA]
  have hfs2 : (insert_size df data).file_sizes =
      [(ff.data.size, ff.data :: (rest ++ [data]))] := by
    simp only [insert_size, hsome, if_true]
    rw [hfs, hkey]
    simp [modifyA]
  have hdup2 : (insert_size df data).duplicate_file_sizes =
      insertS df.duplicate_file_sizes ff.data.size := by
    simp only [insert_size, hsome, if_true]
    rw [hkey]
  refine ⟨rest ++ [data], hfs2, ?_, ?_, ?_⟩
  · intro r hr
    rcases List.mem_append.mp hr with hr1 | hr1
    · exact hins r hr1
    · simp at hr1
      subst hr1
      exact hok
  · intro s hs
    rw [hdup2] at hs
    rcases mem_insertS.mp hs with hs1 | hs1
    · exact hdup s hs1
    · exact hs1
  · intro _
    rw [hdup2]
    exact self_mem_insertS _ _

theorem build_directories_find_inv (fs : FS) (ff : FindFile) (fuel : Nat)
    (df : DupeFinder) (hff : df.find_file = some ff) (hq : FSInv fs ff df) :
    (build_directories fs fuel df).1.find_file = some ff ∧
      FSInv fs ff (build_directories fs fuel df).1 :=
  build_directories_pres fs (fun x => x.find_file = some ff ∧ FSInv fs ff x)
    (fun d1 data hq1 hok => by
      refine ⟨((insert_size_frame d1 data).2.2.1).trans hq1.1, ?_⟩
      apply insert_size_FSInv hq1.2
      rw [hq1.1] at hok
      exact hok)
    (fun d1 c hq1 => hq1)
    fuel df ⟨hff, hq⟩

theorem seed_state_FSInv (fs : FS) (ff : FindFile) (dirs : List String)
    (recurse : Bool) :
    FSInv fs ff (seed_state (DupeFinder.mk0 dirs recurse) ff) := by
  refine ⟨[], ?_, ?_, ?_, ?_⟩
  · simp [seed_state, insert_find_file_size, DupeFinder.mk0, insertReplace]
  · intro r hr
    simp at hr
  · intro s hs
    have h2 : (seed_state (DupeFinder.mk0 dirs recurse) ff).duplicate_file_sizes =
        (DupeFinder.mk0 dirs recurse).duplicate_file_sizes :=
      (insert_find_file_size_frame _).2.2.1
    rw [h2] at hs
    simp [DupeFinder.mk0] at hs
  · intro h
    exact absurd rfl h

/-- C10: in target-file mode every candidate size equals the target
size, and the Size Index consists of the single target-size bucket whose
position-0 record is the seeded target; every other record in the bucket
has a path different from the target path, so skipping position 0 never
drops a file discovered by the walk. -/
theorem C10_target_mode_bucket_shape (fs : FS) (fuel : Nat) (dirs : List String)
    (recurse : Bool) (path : String) (ff : FindFile)
    (hffn : FindFile.new fs path = some ff) :
    (∀ s ∈ (run_for_file fs fuel (DupeFinder.mk0 dirs recurse) path).state.duplicate_file_sizes,
      s = ff.data.size) ∧
    ∃ rest,
      (run_for_file fs fuel (DupeFinder.mk0 dirs recurse) path).state.file_sizes =
          [(ff.data.size, ff.data :: rest)] ∧
        ∀ r ∈ rest, r.path ≠ ff.data.path := by
  have hstate : (run_for_file fs fuel (DupeFinder.mk0 dirs recurse) path).state =
      (build_directories fs fuel (seed_state (DupeFinder.mk0 dirs recurse) ff)).1 := by
    rw [run_for_file_eq_ok fuel _ hffn, reset_state_mk0]
    exact (run_for_file_core_spec fs fuel (DupeFinder.mk0 dirs recurse) ff).1
  have hinv := build_directories_find_inv fs ff fuel
    (seed_state (DupeFinder.mk0 dirs recurse) ff) (seed_state_find_file _ _)
    (seed_state_FSInv fs ff dirs recurse)
  obtain ⟨rest, hfs, hins, hdup, _⟩ := hinv.2
  rw [hstate]
  refine ⟨hdup, rest, hfs, ?_⟩
  intro r hr
  exact ((hins r hr).2.2.2.2 ff rfl).2

/-! ### Which records are fingerprinted during resolution -/

theorem check_path_duplicates_hlog_full {fs : FS} {df : DupeFinder}
    (paths : List DirData) (results : List (String × Duplicate))
    (hf : df.find_file = none) :
    (check_path_duplicates fs df paths results).2 = paths.map (fun r => r.path) := by
  rw [check_path_duplicates_full paths results hf]
  rw [cpd_loop_hlog]
  simp

theorem check_path_duplicates_hlog_target {fs : FS} {df : DupeFinder} {ff : FindFile}
    (paths : List DirData) (results : List (String × Duplicate))
    (hf : df.find_file = some ff) :
    (check_path_duplicates fs df paths results).2 =
      (paths.drop 1).map (fun r => r.path) := by
  rw [check_path_duplicates_target paths results hf]
  rw [cpd_loop_hlog]
  simp

theorem cd_loop_hlog_mem {fs : FS} {df : DupeFinder} :
    ∀ (sizes : List Nat) (results : List (String × Duplicate)) (hlog : List String)
      (q : String), q ∈ (cd_loop fs df sizes results hlog).2 →
      q ∈ hlog ∨ ∃ s b r, s ∈ sizes ∧ findA df.file_sizes s = some b ∧ r.path = q ∧
        r ∈ b ∧ (∀ ff, df.find_file = some ff → r ∈ b.drop 1) := by
  intro sizes
  induction sizes with
  | nil =>
    intro results hlog q hq
    rw [cd_loop_nil] at hq
    exact Or.inl hq
  | cons s rest ih =>
    intro results hlog q hq
    cases hfind : findA df.file_sizes s with
    | none =>
      rw [cd_loop_cons_none rest results hlog hfind] at hq
      rcases ih results hlog q hq with h1 | ⟨s', b', r', hs', hb', hpq, hrb', hdrop⟩
      · exact Or.inl h1
      · exact Or.inr ⟨s', b', r', by simp [hs'], hb', hpq, hrb', hdrop⟩
    | some paths =>
      rw [cd_loop_cons_some rest results hlog hfind] at hq
      rcases ih _ _ q hq with h1 | ⟨s', b', r', hs', hb', hpq, hrb', hdrop⟩
      · rcases List.mem_append.mp h1 with h2 | h2
        · exact Or.inl h2
        · right
          cases hf : df.find_file with
          | none =>
            rw [check_path_duplicates_hlog_full paths results hf] at h2
            obtain ⟨r, hr, hrq⟩ := List.mem_map.mp h2
            exact ⟨s, paths, r, by simp, hfind, hrq, hr,
              fun ff2 hff2 => by simp at hff2⟩
          | some ff =>
            rw [check_path_duplicates_hlog_target paths results hf] at h2
            obtain ⟨r, hr, hrq⟩ := List.mem_map.mp h2
            exact ⟨s, paths, r, by simp, hfind, hrq, List.drop_subset 1 paths hr,
              fun ff2 _ => hr⟩
      · exact Or.inr ⟨s', b', r', by simp [hs'], hb', hpq, hrb', hdrop⟩

theorem singleton_bucket_not_fingerprinted {fs : FS} {df : DupeFinder}
    (hst : SIndexInv fs df)
    (hmeta : ∀ s b r, findA df.file_sizes s = some b → r ∈ b →
      fs.meta r.path = some r.meta)
    {s : Nat} {b : List DirData} {r : DirData} (hfind : findA df.file_sizes s = some b)
    (hlen : b.length = 1) (hr : r ∈ b) :
    r.path ∉ (check_duplicates fs df).2 := by
  intro hmem
  rcases cd_loop_hlog_mem df.duplicate_file_sizes [] [] r.path hmem with
    h0 | ⟨s', b', r', hs', hb', hpq, hrb', _⟩
  · simp at h0
  · have hm1 := hmeta s b r hfind hr
    have hm2 := hmeta s' b' r' hb' hrb'
    have hlen1 := ((hst.1 s b hfind).2 r hr).2
    have hlen2 := ((hst.1 s' b' hb').2 r' hrb').2
    rw [hpq, hm1] at hm2
    injection hm2 with hm2
    have hss : s' = s := by rw [← hlen2, ← hlen1, hm2]
    obtain ⟨b2, hb2, h2len⟩ := hst.2 s' hs'
    rw [hss, hfind] at hb2
    injection hb2 with hb2
    rw [← hb2] at h2len
    omega

/-- C6: a record sitting in a bucket that ends the walk with exactly one
occupant is never passed to the content fingerprinter during resolution
(only candidate-size buckets are fingerprinted), in full-scan and in
target-file mode alike. -/
theorem C6_singleton_bucket_never_fingerprinted (fs : FS) (fuel : Nat)
    (dirs : List String) (recurse : Bool) :
    (∀ s b r,
      findA (run fs fuel (DupeFinder.mk0 dirs recurse)).state.file_sizes s = some b →
      b.length = 1 → r ∈ b →
      r.path ∉ (run fs fuel (DupeFinder.mk0 dirs recurse)).hashLog) ∧
    (∀ path s b r,
      findA (run_for_file fs fuel (DupeFinder.mk0 dirs recurse) path).state.file_sizes s =
        some b →
      b.length = 1 → r ∈ b →
      r.path ∉ (run_for_file fs fuel (DupeFinder.mk0 dirs recurse) path).hashLog) := by
  constructor
  · intro s b r hfind hlen hr
    rw [run_state, reset_state_mk0] at hfind
    rw [run_hashLog, reset_state_mk0]
    have hst := build_directories_SIndexInv fs fuel _ (SIndexInv_mk0 fs dirs recurse)
    have hfr : (build_directories fs fuel (DupeFinder.mk0 dirs recurse)).1.find_file = none :=
      (build_directories_frame fs fuel _).2.2
    have hmeta : ∀ s2 b2 r2,
        findA (build_directories fs fuel (DupeFinder.mk0 dirs recurse)).1.file_sizes s2 =
          some b2 → r2 ∈ b2 → fs.meta r2.path = some r2.meta := by
      intro s2 b2 r2 hf2 hr2
      rcases ((hst.1 s2 b2 hf2).2 r2 hr2).1 with hok | ⟨ff2, hff2, _⟩
      · exact hok.1
      · rw [hfr] at hff2
        simp at hff2
    exact singleton_bucket_not_fingerprinted hst hmeta hfind hlen hr
  · intro path s b r hfind hlen hr
    cases hffn : FindFile.new fs path with
    | none =>
      rw [run_for_file_eq_err fuel _ hffn] at hfind
      simp [reset_state_mk0, DupeFinder.mk0, findA] at hfind
    | some ff =>
      rw [run_for_file_eq_ok fuel (DupeFinder.mk0 dirs recurse) hffn, reset_state_mk0] at hfind
      rw [run_for_file_eq_ok fuel (DupeFinder.mk0 dirs recurse) hffn, reset_state_mk0]
      obtain ⟨hs1, _, hs3, _⟩ := run_for_file_core_spec fs fuel (DupeFinder.mk0 dirs recurse) ff
      rw [hs1] at hfind
      rw [hs3]
      obtain ⟨hh, hm, hp, hsz⟩ := FindFile_new_spec hffn
      have hseed : SIndexInv fs (seed_state (DupeFinder.mk0 dirs recurse) ff) :=
        SIndexInv_seed (by simp [DupeFinder.mk0]) (by simp [DupeFinder.mk0]) hffn
      have hst := build_directories_SIndexInv fs fuel _ hseed
      have hfr : (build_directories fs fuel
          (seed_state (DupeFinder.mk0 dirs recurse) ff)).1.find_file = some ff :=
        ((build_directories_frame fs fuel _).2.2).trans (seed_state_find_file _ _)
      have hmeta : ∀ s2 b2 r2,
          findA (build_directories fs fuel
            (seed_state (DupeFinder.mk0 dirs recurse) ff)).1.file_sizes s2 = some b2 →
          r2 ∈ b2 → fs.meta r2.path = some r2.meta := by
        intro s2 b2 r2 hf2 hr2
        rcases ((hst.1 s2 b2 hf2).2 r2 hr2).1 with hok | ⟨ff2, hff2, he⟩
        · exact hok.1
        · rw [hfr] at hff2
          injection hff2 with hff2
          subst hff2
          subst he
          rw [hp]
          exact hm
      exact singleton_bucket_not_fingerprinted hst hmeta hfind hlen hr

/-- C8: in target-file mode the resolution of a bucket starts from a
digest map pre-seeded with the target digest mapped to the target path
and iterates from position 1, skipping the seeded record at position 0;
consequently the target path is never passed to the content
fingerprinter during resolution. -/
theorem C8_target_preseeded_and_skipped (fs : FS) (fuel : Nat) (dirs : List String)
    (recurse : Bool) (path : String) (ff : FindFile)
    (hffn : FindFile.new fs path = some ff) :
    (∀ (df : DupeFinder) (paths : List DirData) (results : List (String × Duplicate)),
      df.find_file = some ff →
      check_path_duplicates fs df paths results =
        ((cpd_loop fs (paths.drop 1) [(ff.hash, ff.data.path)] results []).2.1,
          (cpd_loop fs (paths.drop 1) [(ff.hash, ff.data.path)] results []).2.2)) ∧
    path ∉ (run_for_file fs fuel (DupeFinder.mk0 dirs recurse) path).hashLog := by
  constructor
  · intro df paths results hf
    exact check_path_duplicates_target paths results hf
  · intro hmem
    rw [run_for_file_eq_ok fuel _ hffn, reset_state_mk0] at hmem
    rw [(run_for_file_core_spec fs fuel (DupeFinder.mk0 dirs recurse) ff).2.2.1] at hmem
    obtain ⟨hh, hm, hp, hsz⟩ := FindFile_new_spec hffn
    have hinv := build_directories_find_inv fs ff fuel
      (seed_state (DupeFinder.mk0 dirs recurse) ff) (seed_state_find_file _ _)
      (seed_state_FSInv fs ff dirs recurse)
    obtain ⟨rest, hfs, hins, _, _⟩ := hinv.2
    rcases cd_loop_hlog_mem _ [] [] path hmem with h0 | ⟨s', b', r', hs', hb', hpq, _, hdrop⟩
    · simp at h0
    · rw [hfs] at hb'
      have hb2 : b' = ff.data :: rest := by
        by_cases he : ff.data.size = s'
        · simp [findA, he] at hb'
          exact hb'.symm
        · simp [findA, he] at hb'
      have hr2 : r' ∈ rest := by
        have := hdrop ff hinv.1
        rw [hb2] at this
        simpa using this
      have := ((hins r' hr2).2.2.2.2 ff rfl).2
      rw [hpq, hp] at this
      exact this rfl

/-! ### Monotonicity of the result map during resolution -/

/-- Groups present in the first result map are present in the second
with at least the same member paths. -/
def resultsLE (r1 r2 : List (String × Duplicate)) : Prop :=
  ∀ H g1, findA r1 H = some g1 → ∃ g2, findA r2 H = some g2 ∧ ∀ q ∈ g1.files, q ∈ g2.files

theorem resultsLE_refl (r : List (String × Duplicate)) : resultsLE r r :=
  fun _ g1 h => ⟨g1, h, fun _ hq => hq⟩

theorem resultsLE_trans {r1 r2 r3 : List (String × Duplicate)} (h12 : resultsLE r1 r2)
    (h23 : resultsLE r2 r3) : resultsLE r1 r3 := by
  intro H g1 h
  obtain ⟨g2, h2, hsub⟩ := h12 H g1 h
  obtain ⟨g3, h3, hsub2⟩ := h23 H g2 h2
  exact ⟨g3, h3, fun q hq => hsub2 q (hsub q hq)⟩

theorem resultsLE_modify (r : List (String × Duplicate)) (fh x : String) :
    resultsLE r (modifyA r fh (fun e => { e with files := e.files ++ [x] })) := by
  intro H g1 h
  by_cases he : H = fh
  · subst he
    refine ⟨{ g1 with files := g1.files ++ [x] }, ?_, ?_⟩
    · rw [findA_modifyA_self, h]
      rfl
    · intro q hq
      simp [hq]
  · refine ⟨g1, ?_, fun _ hq => hq⟩
    rw [findA_modifyA_ne _ _ _ _ he]
    exact h

theorem resultsLE_append (r : List (String × Duplicate)) (p : String × Duplicate) :
    resultsLE r (r ++ [p]) :=
  fun _ g1 h => ⟨g1, findA_append_left _ h, fun _ hq => hq⟩

theorem cpd_le (fs : FS) :
    ∀ (l : List DirData) (known : List (String × String))
      (results : List (String × Duplicate)) (hlog : List String),
      resultsLE results (cpd_loop fs l known results hlog).2.1 := by
  intro l
  induction l with
  | nil =>
    intro known results hlog
    rw [cpd_loop_nil]
    exact resultsLE_refl results
  | cons data rest ih =>
    intro known results hlog
    cases hh : fs.hashOf data.path with
    | none =>
      rw [cpd_loop_cons_err rest known results hlog hh]
      exact ih _ _ _
    | some fh =>
      cases hprev : findA known fh with
      | none =>
        rw [cpd_loop_cons_new rest known results hlog hh hprev]
        exact ih _ _ _
      | some q =>
        cases hres : findA results fh with
        | none =>
          rw [cpd_loop_cons_create rest known results hlog hh hprev hres]
          exact resultsLE_trans (resultsLE_append results _) (ih _ _ _)
        | some g0 =>
          rw [cpd_loop_cons_push rest known results hlog hh hprev (by simp [hres])]
          exact resultsLE_trans (resultsLE_modify results fh data.path) (ih _ _ _)

theorem check_path_duplicates_le (fs : FS) (df : DupeFinder) (paths : List DirData)
    (results : List (String × Duplicate)) :
    resultsLE results (check_path_duplicates fs df paths results).1 := by
  cases hf : df.find_file with
  | none =>
    rw [check_path_duplicates_full paths results hf]
    exact cpd_le fs paths [] results []
  | some ff =>
    rw [check_path_duplicates_target paths results hf]
    exact cpd_le fs (paths.drop 1) [(ff.hash, ff.data.path)] results []

theorem cd_le (fs : FS) (df : DupeFinder) :
    ∀ (sizes : List Nat) (results : List (String × Duplicate)) (hlog : List String),
      resultsLE results (cd_loop fs df sizes results hlog).1 := by
  intro sizes
  induction sizes with
  | nil =>
    intro results hlog
    rw [cd_loop_nil]
    exact resultsLE_refl results
  | cons s rest ih =>
    intro results hlog
    cases hfind : findA df.file_sizes s with
    | none =>
      rw [cd_loop_cons_none rest results hlog hfind]
      exact ih _ _
    | some paths =>
      rw [cd_loop_cons_some rest results hlog hfind]
      exact resultsLE_trans (check_path_duplicates_le fs df paths results) (ih _ _)

/-! ### The target path always joins its duplicate group -/

/-- Invariant of the local digest map and the result map during the
resolution of a bucket in target-file mode: the target digest is bound
in the digest map, and the group under the target digest, once created,
contains the target path. -/
def TInv (ff : FindFile) (known : List (String × String))
    (results : List (String × Duplicate)) : Prop :=
  (findA known ff.hash = some ff.data.path ∧ findA results ff.hash = none) ∨
    ((findA known ff.hash).isSome ∧
      ∃ g, findA results ff.hash = some g ∧ ff.data.path ∈ g.files)

/-- The group under the target digest, when present, holds the target. -/
def RInv (ff : FindFile) (results : List (String × Duplicate)) : Prop :=
  findA results ff.hash = none ∨
    ∃ g, findA results ff.hash = some g ∧ ff.data.path ∈ g.files

theorem cpd_target_main (fs : FS) (ff : FindFile) :
    ∀ (l : List DirData) (known : List (String × String))
      (results : List (String × Duplicate)) (hlog : List String),
      TInv ff known results →
      TInv ff (cpd_loop fs l known results hlog).1 (cpd_loop fs l known results hlog).2.1 ∧
        ∀ r ∈ l, fs.hashOf r.path = some ff.hash →
          ∃ g, findA (cpd_loop fs l known results hlog).2.1 ff.hash = some g ∧
            r.path ∈ g.files ∧ ff.data.path ∈ g.files := by
  intro l
  induction l with
  | nil =>
    intro known results hlog ht
    rw [cpd_loop_nil]
    exact ⟨ht, fun r hr => by simp at hr⟩
  | cons data rest ih =>
    intro known results hlog ht
    cases hh : fs.hashOf data.path with
    | none =>
      rw [cpd_loop_cons_err rest known results hlog hh]
      refine ⟨(ih _ _ _ ht).1, ?_⟩
      intro r hr hhash
      rcases List.mem_cons.mp hr with rfl | hr2
      · rw [hh] at hhash
        simp at hhash
      · exact (ih _ _ _ ht).2 r hr2 hhash
    | some fh =>
      by_cases hfh : fh = ff.hash
      · subst hfh
        have hxex : ∃ x, findA known ff.hash = some x := by
          rcases ht with ⟨h1, _⟩ | ⟨h1, _⟩
          · exact ⟨ff.data.path, h1⟩
          · exact Option.isSome_iff_exists.mp h1
        obtain ⟨x, hprev⟩ := hxex
        rcases ht with ⟨h1, h2⟩ | ⟨_, g, hg, hmemg⟩
        · have hx : x = ff.data.path := by
            rw [hprev] at h1
            injection h1
          rw [cpd_loop_cons_create rest known results hlog hh hprev h2]
          have hres1 : findA
              (results ++ [(ff.hash, Duplicate.mk ff.hash [x, data.path] data.meta.len)])
              ff.hash = some (Duplicate.mk ff.hash [x, data.path] data.meta.len) := by
            rw [findA_append_right _ h2]
            simp [findA]
          have ht1 : TInv ff (insertReplace known ff.hash data.path)
              (results ++ [(ff.hash, Duplicate.mk ff.hash [x, data.path] data.meta.len)]) := by
            right
            refine ⟨by rw [findA_insertReplace_self]; rfl, _, hres1, ?_⟩
            simp [Duplicate.mk, hx]
          refine ⟨(ih _ _ _ ht1).1, ?_⟩
          intro r hr hhash
          rcases List.mem_cons.mp hr with rfl | hr2
          · obtain ⟨g2, hg2, hsub⟩ := cpd_le fs rest (insertReplace known ff.hash r.path)
              (results ++ [(ff.hash, Duplicate.mk ff.hash [x, r.path] r.meta.len)])
              (hlog ++ [r.path]) ff.hash _ hres1
            exact ⟨g2, hg2, hsub _ (by simp [Duplicate.mk]), hsub _ (by simp [Duplicate.mk, hx])⟩
          · exact (ih _ _ _ ht1).2 r hr2 hhash
        · have hsome : (findA results ff.hash).isSome := by simp [hg]
          rw [cpd_loop_cons_push rest known results hlog hh hprev hsome]
          have hres1 : findA (modifyA results ff.hash
              (fun e => { e with files := e.files ++ [data.path] })) ff.hash =
              some { g with files := g.files ++ [data.path] } := by
            rw [findA_modifyA_self, hg]
            rfl
          have ht1 : TInv ff (insertReplace known ff.hash data.path)
              (modifyA results ff.hash
                (fun e => { e with files := e.files ++ [data.path] })) := by
            right
            exact ⟨by rw [findA_insertReplace_self]; rfl, _, hres1, by simp [hmemg]⟩
          refine ⟨(ih _ _ _ ht1).1, ?_⟩
          intro r hr hhash
          rcases List.mem_cons.mp hr with rfl | hr2
          · obtain ⟨g2, hg2, hsub⟩ := cpd_le fs rest (insertReplace known ff.hash r.path)
              (modifyA results ff.hash (fun e => { e with files := e.files ++ [r.path] }))
              (hlog ++ [r.path]) ff.hash _ hres1
            exact ⟨g2, hg2, hsub _ (by simp), hsub _ (by simp [hmemg])⟩
          · exact (ih _ _ _ ht1).2 r hr2 hhash
      · have hne : ff.hash ≠ fh := fun e => hfh e.symm
        have hknown : ∀ z, findA (insertReplace known fh z) ff.hash = findA known ff.hash :=
          fun z => findA_insertReplace_ne known fh ff.hash z hne
        have hhead : ∀ r, r = data → fs.hashOf r.path = some ff.hash → False := by
          intro r hr hhash
          subst hr
          rw [hh] at hhash
          injection hhash with e
          exact hfh e
        cases hprev : findA known fh with
        | none =>
          rw [cpd_loop_cons_new rest known results hlog hh hprev]
          have ht1 : TInv ff (insertReplace known fh data.path) results := by
            rcases ht with ⟨h1, h2⟩ | ⟨h1, g, hg, hmemg⟩
            · exact Or.inl ⟨(hknown _).trans h1, h2⟩
            · exact Or.inr ⟨by rw [hknown]; exact h1, g, hg, hmemg⟩
          refine ⟨(ih _ _ _ ht1).1, ?_⟩
          intro r hr hhash
          rcases List.mem_cons.mp hr with rfl | hr2
          · exact absurd rfl (fun e => hhead r e hhash)
          · exact (ih _ _ _ ht1).2 r hr2 hhash
        | some q =>
          cases hres : findA results fh with
          | none =>
            rw [cpd_loop_cons_create rest known results hlog hh hprev hres]
            have ht1 : TInv ff (insertReplace known fh data.path)
                (results ++ [(fh, Duplicate.mk fh [q, data.path] data.meta.len)]) := by
              rcases ht with ⟨h1, h2⟩ | ⟨h1, g, hg, hmemg⟩
              · refine Or.inl ⟨(hknown _).trans h1, ?_⟩
                rw [findA_append_right _ h2]
                simp [findA, hfh]
              · exact Or.inr ⟨by rw [hknown]; exact h1, g, findA_append_left _ hg, hmemg⟩
            refine ⟨(ih _ _ _ ht1).1, ?_⟩
            intro r hr hhash
            rcases List.mem_cons.mp hr with rfl | hr2
            · exact absurd rfl (fun e => hhead r e hhash)
            · exact (ih _ _ _ ht1).2 r hr2 hhash
          | some g0 =>
            rw [cpd_loop_cons_push rest known results hlog hh hprev (by simp [hres])]
            have ht1 : TInv ff (insertReplace known fh data.path)
                (modifyA results fh (fun e => { e with files := e.files ++ [data.path] })) := by
              rcases ht with ⟨h1, h2⟩ | ⟨h1, g, hg, hmemg⟩
              · refine Or.inl ⟨(hknown _).trans h1, ?_⟩
                rw [findA_modifyA_ne _ _ _ _ hne]
                exact h2
              · refine Or.inr ⟨by rw [hknown]; exact h1, g, ?_, hmemg⟩
                rw [findA_modifyA_ne _ _ _ _ hne]
                exact hg
            refine ⟨(ih _ _ _ ht1).1, ?_⟩
            intro r hr hhash
            rcases List.mem_cons.mp hr with rfl | hr2
            · exact absurd rfl (fun e => hhead r e hhash)
            · exact (ih _ _ _ ht1).2 r hr2 hhash

theorem cd_target {fs : FS} {df : DupeFinder} {ff : FindFile} {rest0 : List DirData}
    (hf : df.find_file = some ff)
    (hb0 : findA df.file_sizes ff.data.size = some (ff.data :: rest0)) :
    ∀ (sizes : List Nat) (results : List (String × Duplicate)) (hlog : List String),
      (∀ s ∈ sizes, s = ff.data.size) → RInv ff results →
      RInv ff (cd_loop fs df sizes results hlog).1 ∧
        ∀ dd ∈ rest0, fs.hashOf dd.path = some ff.hash → sizes ≠ [] →
          ∃ g, findA (cd_loop fs df sizes results hlog).1 ff.hash = some g ∧
            dd.path ∈ g.files ∧ ff.data.path ∈ g.files := by
  intro sizes
  induction sizes with
  | nil =>
    intro results hlog _ hr
    rw [cd_loop_nil]
    exact ⟨hr, fun dd _ _ hne => absurd rfl hne⟩
  | cons s rest ih =>
    intro results hlog hall hr
    have hs : s = ff.data.size := hall s (by simp)
    subst hs
    rw [cd_loop_cons_some rest results hlog hb0]
    have hcp : (check_path_duplicates fs df (ff.data :: rest0) results).1 =
        (cpd_loop fs rest0 [(ff.hash, ff.data.path)] results []).2.1 := by
      rw [check_path_duplicates_target _ _ hf]
      simp
    have ht : TInv ff [(ff.hash, ff.data.path)] results := by
      rcases hr with h1 | ⟨g, hg, hm⟩
      · exact Or.inl ⟨by simp [findA], h1⟩
      · exact Or.inr ⟨by simp [findA], g, hg, hm⟩
    have hmain := cpd_target_main fs ff rest0 [(ff.hash, ff.data.path)] results [] ht
    have hr1 : RInv ff (check_path_duplicates fs df (ff.data :: rest0) results).1 := by
      rw [hcp]
      rcases hmain.1 with ⟨_, h2⟩ | ⟨_, g, hg, hm⟩
      · exact Or.inl h2
      · exact Or.inr ⟨g, hg, hm⟩
    refine ⟨(ih _ _ (fun s2 hs2 => hall s2 (by simp [hs2])) hr1).1, ?_⟩
    intro dd hdd hhash _
    have hstep := hmain.2 dd hdd hhash
    rw [← hcp] at hstep
    obtain ⟨g1, hg1, hddm, hffm⟩ := hstep
    obtain ⟨g2, hg2, hsub⟩ := cd_le fs df rest _ _ ff.hash g1 hg1
    exact ⟨g2, hg2, hsub _ hddm, hsub _ hffm⟩

/-! ### Every qualifying enumerated file reaches the target bucket -/

/-- A record that passes the indexing predicate in target-file mode. -/
def Qual (ff : FindFile) (dd : DirData) : Prop :=
  dd.meta.is_file = true ∧ dd.size ≠ 0 ∧ dd.size = ff.data.size ∧ dd.path ≠ ff.data.path

/-- The record sits in the tail of the single target-size bucket. -/
def MemRest (ff : FindFile) (df : DupeFinder) (dd : DirData) : Prop :=
  ∃ rest, df.file_sizes = [(ff.data.size, ff.data :: rest)] ∧ dd ∈ rest

theorem memrest_ins (fs : FS) (ff : FindFile) (dd : DirData) :
    ∀ (df : DupeFinder) (data : DirData),
      (df.find_file = some ff ∧ MemRest ff df dd) → InsOK fs df.find_file data →
      (insert_size df data).find_file = some ff ∧ MemRest ff (insert_size df data) dd := by
  intro df data hq hok
  refine ⟨((insert_size_frame df data).2.2.1).trans hq.1, ?_⟩
  obtain ⟨rest, hfs, hmem⟩ := hq.2
  rw [hq.1] at hok
  have hkey : data.meta.len = ff.data.size := by
    rw [← hok.2.1]
    exact (hok.2.2.2.2 ff rfl).1
  have hsome : (findA df.file_sizes data.meta.len).isSome := by
    rw [hfs, hkey]
    simp [findA]
  refine ⟨rest ++ [data], ?_, by simp [hmem]⟩
  simp only [insert_size, hsome, if_true]
  rw [hfs, hkey]
  simp [modifyA]

theorem fsinv_ins (fs : FS) (ff : FindFile) :
    ∀ (df : DupeFinder) (data : DirData),
      (df.find_file = some ff ∧ FSInv fs ff df) → InsOK fs df.find_file data →
      (insert_size df data).find_file = some ff ∧ FSInv fs ff (insert_size df data) := by
  intro df data hq hok
  refine ⟨((insert_size_frame df data).2.2.1).trans hq.1, ?_⟩
  apply insert_size_FSInv hq.2
  rw [hq.1] at hok
  exact hok

theorem build_entries_qual_mem {fs : FS} {ff : FindFile} :
    ∀ (es : List String) (df : DupeFinder) (sd : List String) (p : String) (dd : DirData),
      df.find_file = some ff → FSInv fs ff df →
      p ∈ es → DirData.new fs p = some dd → Qual ff dd →
      MemRest ff (build_entries fs df es sd).1 dd := by
  intro es
  induction es with
  | nil =>
    intro df sd p dd _ _ hp
    simp at hp
  | cons q rest ih =>
    intro df sd p dd hff hfsinv hp hd hqual
    rcases List.mem_cons.mp hp with rfl | hp2
    · have htrue : should_insert_size df dd sd = (true, sd) := by
        rw [should_insert_size_target sd hqual.1 hqual.2.1 hff]
        rw [if_neg (not_not_intro hqual.2.2.1), if_neg hqual.2.2.2]
      rw [build_entries_cons_true rest hd htrue]
      have hok : InsOK fs (some ff) dd := by
        obtain ⟨hm, hppath, hsz⟩ := DirData_new_spec hd
        refine ⟨hppath ▸ hm, hsz, hqual.1, hqual.2.1, ?_⟩
        intro ff2 hff2
        injection hff2 with e
        subst e
        exact ⟨hqual.2.2.1, hqual.2.2.2⟩
      obtain ⟨rest0, hfs, _, _, _⟩ := hfsinv
      have hkey : dd.meta.len = ff.data.size := by
        rw [← hok.2.1]
        exact (hok.2.2.2.2 ff rfl).1
      have hsome : (findA df.file_sizes dd.meta.len).isSome := by
        rw [hfs, hkey]
        simp [findA]
      have hmem1 : MemRest ff (insert_size df dd) dd := by
        refine ⟨rest0 ++ [dd], ?_, by simp⟩
        simp only [insert_size, hsome, if_true]
        rw [hfs, hkey]
        simp [modifyA]
      have hff1 : (insert_size df dd).find_file = some ff :=
        ((insert_size_frame df dd).2.2.1).trans hff
      exact (build_entries_pres fs (fun x => x.find_file = some ff ∧ MemRest ff x dd)
        (memrest_ins fs ff dd) rest (insert_size df dd) sd ⟨hff1, hmem1⟩).2
    · cases hdq : DirData.new fs q with
      | none =>
        rw [build_entries_cons_err df rest sd hdq]
        exact ih df sd p dd hff hfsinv hp2 hd hqual
      | some dq =>
        cases hsq : should_insert_size df dq sd with
        | mk bq sdq =>
          cases bq with
          | false =>
            rw [build_entries_cons_false rest hdq hsq]
            exact ih df sdq p dd hff hfsinv hp2 hd hqual
          | true =>
            rw [build_entries_cons_true rest hdq hsq]
            have hokq : InsOK fs df.find_file dq := by
              obtain ⟨hm, hppath, hsz⟩ := DirData_new_spec hdq
              obtain ⟨h1, h2, h3, _⟩ := should_insert_true_spec hsq
              exact ⟨hppath ▸ hm, hsz, h1, h2, h3⟩
            refine ih (insert_size df dq) sdq p dd
              (((insert_size_frame df dq).2.2.1).trans hff) ?_ hp2 hd hqual
            apply insert_size_FSInv hfsinv
            rw [hff] at hokq
            exact hokq

/-- Everything enumerated so far that qualifies is already in the tail
of the target bucket. -/
def EnumInv (fs : FS) (ff : FindFile) (df : DupeFinder) (log : List String) : Prop :=
  ∀ d ∈ log, ∀ es, fs.listDir d = some es → ∀ p ∈ es, ∀ dd,
    DirData.new fs p = some dd → Qual ff dd → MemRest ff df dd

theorem build_directory_contents_eq_none {fs : FS} {df : DupeFinder} {d : String}
    (h : build_directory_contents fs df d = none) : fs.listDir d = none := by
  unfold build_directory_contents at h
  cases hl : fs.listDir d with
  | none => rfl
  | some es =>
    rw [hl] at h
    simp at h

theorem build_directory_contents_eq_some {fs : FS} {df df2 : DupeFinder} {d : String}
    {subs : List String} (h : build_directory_contents fs df d = some (df2, subs)) :
    ∃ es, fs.listDir d = some es ∧ build_entries fs df es [] = (df2, subs) := by
  unfold build_directory_contents at h
  cases hl : fs.listDir d with
  | none =>
    rw [hl] at h
    simp at h
  | some es =>
    rw [hl] at h
    simp at h
    exact ⟨es, rfl, h⟩

theorem process_dirs_enum (fs : FS) (ff : FindFile) :
    ∀ (dirs : List String) (df : DupeFinder) (next log : List String),
      df.find_file = some ff → FSInv fs ff df → EnumInv fs ff df log →
      (process_dirs fs df dirs next log).1.find_file = some ff ∧
        FSInv fs ff (process_dirs fs df dirs next log).1 ∧
        EnumInv fs ff (process_dirs fs df dirs next log).1
          (process_dirs fs df dirs next log).2.2 := by
  intro dirs
  induction dirs with
  | nil =>
    intro df next log hff hfsinv henum
    rw [process_dirs_nil]
    exact ⟨hff, hfsinv, henum⟩
  | cons d rest ih =>
    intro df next log hff hfsinv henum
    by_cases hc : d ∈ df.checked_directories
    · rw [process_dirs_cons_mem rest next log hc]
      exact ih df next log hff hfsinv henum
    · have hff1 : ({ df with checked_directories := insertS df.checked_directories d }
          : DupeFinder).find_file = some ff := hff
      have hfsinv1 : FSInv fs ff
          { df with checked_directories := insertS df.checked_directories d } := hfsinv
      cases hbd : build_directory_contents fs
          { df with checked_directories := insertS df.checked_directories d } d with
      | none =>
        rw [process_dirs_cons_err rest next log hc hbd]
        apply ih _ next (log ++ [d]) hff1 hfsinv1
        intro d2 hd2 es hes p hp dd hdd hq
        rcases List.mem_append.mp hd2 with hd3 | hd3
        · exact henum d2 hd3 es hes p hp dd hdd hq
        · simp at hd3
          subst hd3
          rw [build_directory_contents_eq_none hbd] at hes
          simp at hes
      | some pr =>
        obtain ⟨df2, subs⟩ := pr
        rw [process_dirs_cons_ok rest next log hc hbd]
        obtain ⟨es0, hes0, hbe⟩ := build_directory_contents_eq_some hbd
        have hdf2 : df2 = (build_entries fs
            { df with checked_directories := insertS df.checked_directories d } es0 []).1 := by
          rw [hbe]
        have hff2 : df2.find_file = some ff := by
          rw [hdf2]
          exact (build_entries_pres fs (fun x => x.find_file = some ff)
            (fun d1 data hq1 _ => ((insert_size_frame d1 data).2.2.1).trans hq1)
            es0 _ [] hff1)
        have hfsinv2 : FSInv fs ff df2 := by
          rw [hdf2]
          exact (build_entries_pres fs (fun x => x.find_file = some ff ∧ FSInv fs ff x)
            (fsinv_ins fs ff) es0 _ [] ⟨hff1, hfsinv1⟩).2
        apply ih df2 (next ++ subs) (log ++ [d]) hff2 hfsinv2
        intro d2 hd2 es hes p hp dd hdd hq
        rcases List.mem_append.mp hd2 with hd3 | hd3
        · have hold := henum d2 hd3 es hes p hp dd hdd hq
          rw [hdf2]
          exact (build_entries_pres fs (fun x => x.find_file = some ff ∧ MemRest ff x dd)
            (memrest_ins fs ff dd) es0 _ [] ⟨hff1, hold⟩).2
        · simp at hd3
          subst hd3
          rw [hes0] at hes
          injection hes with hes
          subst hes
          rw [hdf2]
          exact build_entries_qual_mem es0 _ [] p dd hff1 hfsinv1 hp hdd hq

theorem build_loop_enum (fs : FS) (ff : FindFile) :
    ∀ (fuel : Nat) (df : DupeFinder) (cds log : List String),
      df.find_file = some ff → FSInv fs ff df → EnumInv fs ff df log →
      (build_loop fs fuel df cds log).1.find_file = some ff ∧
        FSInv fs ff (build_loop fs fuel df cds log).1 ∧
        EnumInv fs ff (build_loop fs fuel df cds log).1 (build_loop fs fuel df cds log).2 := by
  intro fuel
  induction fuel with
  | zero =>
    intro df cds log hff hfsinv henum
    rw [build_loop_zero]
    exact ⟨hff, hfsinv, henum⟩
  | succ n ih =>
    intro df cds log hff hfsinv henum
    cases cds with
    | nil =>
      rw [build_loop_succ_nil]
      exact ⟨hff, hfsinv, henum⟩
    | cons d rest =>
      cases hp : process_dirs fs df (d :: rest) [] log with
      | mk df1 pr =>
        obtain ⟨next, log1⟩ := pr
        rw [build_loop_succ_cons n log hp]
        have h1 := process_dirs_enum fs ff (d :: rest) df [] log hff hfsinv henum
        rw [hp] at h1
        exact ih df1 next log1 h1.1 h1.2.1 h1.2.2

/-- C3: when run_for_file returns a duplicate group, the queried path is
among its member paths, together with every path enumerated during the
walk whose metadata marks it as a file of the target byte size and whose
content digest equals the target digest. -/
theorem C3_returned_group_contains_target_and_matches (fs : FS) (fuel : Nat)
    (dirs : List String) (recurse : Bool) (path : String) (g : Duplicate)
    (hok : (run_for_file fs fuel (DupeFinder.mk0 dirs recurse) path).result =
      Except.ok (some g)) :
    path ∈ g.files ∧
      ∀ ff, FindFile.new fs path = some ff →
        ∀ p m d es,
          d ∈ (run_for_file fs fuel (DupeFinder.mk0 dirs recurse) path).dirLog →
          fs.listDir d = some es → p ∈ es →
          fs.meta p = some m → m.is_file = true → m.len = ff.data.size →
          p ≠ path → fs.hashOf p = some ff.hash →
          p ∈ g.files := by
  cases hffn : FindFile.new fs path with
  | none =>
    rw [run_for_file_eq_err fuel _ hffn] at hok
    simp at hok
  | some ff =>
    rw [run_for_file_eq_ok fuel _ hffn, reset_state_mk0] at hok
    obtain ⟨hs1, hs2, hs3, hs4⟩ :=
      run_for_file_core_spec fs fuel (DupeFinder.mk0 dirs recurse) ff
    cases hbd : build_directories fs fuel (seed_state (DupeFinder.mk0 dirs recurse) ff) with
    | mk st dlog =>
      obtain ⟨hh, hm, hp, hsz⟩ := FindFile_new_spec hffn
      have hfind : findA (check_duplicates fs st).1 ff.hash = some g := by
        have h0 : (run_for_file_core fs fuel (DupeFinder.mk0 dirs recurse) ff).result =
            Except.ok (findA (check_duplicates fs st).1 ff.hash) := by
          rw [hs4, hbd]
        rw [h0] at hok
        injection hok with hok
      have hdirlog : (run_for_file fs fuel (DupeFinder.mk0 dirs recurse) path).dirLog =
          dlog := by
        rw [run_for_file_eq_ok fuel _ hffn, reset_state_mk0, hs2, hbd]
      have hinvf := build_directories_find_inv fs ff fuel
        (seed_state (DupeFinder.mk0 dirs recurse) ff) (seed_state_find_file _ _)
        (seed_state_FSInv fs ff dirs recurse)
      rw [hbd] at hinvf
      have hstff : st.find_file = some ff := hinvf.1
      have hfsinvst : FSInv fs ff st := hinvf.2
      have hsti : SIndexInv fs st := by
        have hseed : SIndexInv fs (seed_state (DupeFinder.mk0 dirs recurse) ff) :=
          SIndexInv_seed (by simp [DupeFinder.mk0]) (by simp [DupeFinder.mk0]) hffn
        have h1 := build_directories_SIndexInv fs fuel _ hseed
        rw [hbd] at h1
        exact h1
      have henum : EnumInv fs ff st dlog := by
        have h1 := build_loop_enum fs ff fuel (seed_state (DupeFinder.mk0 dirs recurse) ff)
          (seed_state (DupeFinder.mk0 dirs recurse) ff).directories []
          (seed_state_find_file _ _) (seed_state_FSInv fs ff dirs recurse)
          (fun d2 hd2 => absurd hd2 (List.not_mem_nil d2))
        have h2 : build_loop fs fuel (seed_state (DupeFinder.mk0 dirs recurse) ff)
            (seed_state (DupeFinder.mk0 dirs recurse) ff).directories [] = (st, dlog) := hbd
        rw [h2] at h1
        exact h1.2.2
      obtain ⟨rest0, hfs, hins, hdupall, _⟩ := hfsinvst
      have hb0 : findA st.file_sizes ff.data.size = some (ff.data :: rest0) := by
        rw [hfs]
        simp [findA]
      have hmain := @cd_target fs st ff rest0 hstff hb0 st.duplicate_file_sizes [] []
        hdupall (Or.inl rfl)
      have hfind2 : findA (cd_loop fs st st.duplicate_file_sizes [] []).1 ff.hash =
          some g := hfind
      have htar : path ∈ g.files := by
        rcases hmain.1 with h1 | ⟨g2, hg2, hmem2⟩
        · rw [hfind2] at h1
          simp at h1
        · rw [hfind2] at hg2
          injection hg2 with hg2
          subst hg2
          rw [hp] at hmem2
          exact hmem2
      refine ⟨htar, ?_⟩
      intro ff2 hff2 p m d es hd hles hpes hmeta hfile hlen hne hhash
      injection hff2 with hff2
      subst hff2
      rw [hdirlog] at hd
      have hffz : ff.data.size ≠ 0 := by
        have hdne : st.duplicate_file_sizes ≠ [] := by
          intro he
          rw [he, cd_loop_nil] at hfind2
          simp [findA] at hfind2
        obtain ⟨s0, hs0⟩ := List.exists_mem_of_ne_nil _ hdne
        have hs0e := hdupall s0 hs0
        rw [hs0e] at hs0
        obtain ⟨b2, hb2, hlen2⟩ := hsti.2 ff.data.size hs0
        rw [hb0] at hb2
        injection hb2 with hb2
        have hrne : rest0 ≠ [] := by
          intro he
          rw [← hb2, he] at hlen2
          simp at hlen2
        obtain ⟨r0, hr0⟩ := List.exists_mem_of_ne_nil _ hrne
        have hokr := hins r0 hr0
        have hz0 := hokr.2.2.2.1
        have h2 := (hokr.2.2.2.2 ff rfl).1
        rw [h2] at hz0
        exact hz0
      have hdd : DirData.new fs p = some ⟨p, m, m.len⟩ := by
        simp [DirData.new, hmeta]
      have hqual : Qual ff (⟨p, m, m.len⟩ : DirData) := by
        refine ⟨hfile, ?_, hlen, ?_⟩
        · show m.len ≠ 0
          rw [hlen]
          exact hffz
        · show p ≠ ff.data.path
          rw [hp]
          exact hne
      obtain ⟨rest1, hfs1, hmem1⟩ := henum d hd es hles p hpes _ hdd hqual
      have hre : rest1 = rest0 := by
        rw [hfs] at hfs1
        simp at hfs1
        exact hfs1.symm
      rw [hre] at hmem1
      have hdne2 : st.duplicate_file_sizes ≠ [] := by
        intro he
        rw [he, cd_loop_nil] at hfind2
        simp [findA] at hfind2
      obtain ⟨g3, hg3, hpmem, _⟩ := hmain.2 ⟨p, m, m.len⟩ hmem1 hhash hdne2
      rw [hfind2] at hg3
      injection hg3 with hg3
      subst hg3
      exact hpmem

/-! ### Witness instances on the concrete filesystems -/

/-- A root with two byte-identical files of length 100 and one lone file
of length 50, so the walk ends with a singleton bucket at size 50. -/
def fsS : FS where
  listDir := fun d => if d = "r" then some ["r/a", "r/b", "r/c"] else none
  meta := fun p =>
    if p = "r/a" then some (mFile 100)
    else if p = "r/b" then some (mFile 100)
    else if p = "r/c" then some (mFile 50)
    else none
  hashOf := fun p =>
    if p = "r/a" then some "H"
    else if p = "r/b" then some "H"
    else if p = "r/c" then some "C"
    else none

theorem fs9_root_has_no_files :
    ∀ d ∈ ["r"], ∀ es, fs9.listDir d = some es →
      ∀ p ∈ es, ∀ dd, DirData.new fs9 p = some dd → dd.meta.is_file = false := by
  intro d hd es hes p hp dd hdd
  simp at hd
  subst hd
  simp [fs9] at hes
  subst hes
  simp at hp
  subst hp
  simp [DirData.new, fs9] at hdd
  rw [← hdd]
  rfl

theorem C3_returned_group_contains_target_and_matches_witness :
    "base/a" ∈ (Duplicate.mk "H" ["base/a", "dupes/x", "dupes/y"] 100).files ∧
      "dupes/x" ∈ (Duplicate.mk "H" ["base/a", "dupes/x", "dupes/y"] 100).files :=
  ⟨(C3_returned_group_contains_target_and_matches fsF 2 ["dupes"] false "base/a"
      (Duplicate.mk "H" ["base/a", "dupes/x", "dupes/y"] 100) (by rfl)).1,
    (C3_returned_group_contains_target_and_matches fsF 2 ["dupes"] false "base/a"
      (Duplicate.mk "H" ["base/a", "dupes/x", "dupes/y"] 100) (by rfl)).2
      (FindFile.mk (DirData.mk "base/a" (mFile 100) 100) "H") (by rfl)
      "dupes/x" (mFile 100) "dupes" ["dupes/x", "dupes/y"] (by decide) (by rfl) (by decide)
      (by rfl) (by rfl) (by rfl) (by decide) (by rfl)⟩

theorem C4_directory_enumerated_at_most_once_witness :
    1 ≤ 3 ∧ ((run fs9 3 (DupeFinder.mk0 ["r", "r"] true)).dirLog).count "r" = 1 :=
  ⟨by decide,
    (C4_directory_enumerated_at_most_once fs9 3 ["r", "r"] true).2 (by decide) "r"
      (by decide)⟩

theorem C5_no_zero_size_records_except_seeded_target_witness :
    FindFile.new fsZ "t" = some (FindFile.mk (DirData.mk "t" (mFile 0) 0) "E") ∧
      ((DirData.mk "t" (mFile 0) 0).size ≠ 0 ∨
        DirData.mk "t" (mFile 0) 0 = (FindFile.mk (DirData.mk "t" (mFile 0) 0) "E").data) :=
  ⟨by rfl,
    (C5_no_zero_size_records_except_seeded_target fsZ 1 ["d"] false).2 "t"
      (FindFile.mk (DirData.mk "t" (mFile 0) 0) "E") (by rfl) 0
      [DirData.mk "t" (mFile 0) 0] (DirData.mk "t" (mFile 0) 0) (by rfl) (by simp)⟩

theorem C6_singleton_bucket_never_fingerprinted_witness :
    "r/c" ∉ (run fsS 2 (DupeFinder.mk0 ["r"] false)).hashLog :=
  (C6_singleton_bucket_never_fingerprinted fsS 2 ["r"] false).1 50
    [DirData.mk "r/c" (mFile 50) 50] (DirData.mk "r/c" (mFile 50) 50)
    (by rfl) (by rfl) (by simp)

theorem C8_target_preseeded_and_skipped_witness :
    "base/a" ∉ (run_for_file fsF 2 (DupeFinder.mk0 ["dupes"] false) "base/a").hashLog :=
  (C8_target_preseeded_and_skipped fsF 2 ["dupes"] false "base/a"
    (FindFile.mk (DirData.mk "base/a" (mFile 100) 100) "H") (by rfl)).2

theorem C9_nonrecursive_ignores_subdirectories_witness :
    (run fs9 2 (DupeFinder.mk0 ["r"] false)).result = [] :=
  C9_nonrecursive_ignores_subdirectories.1 fs9 2 ["r"] fs9_root_has_no_files

theorem C10_target_mode_bucket_shape_witness :
    (∀ s ∈
        (run_for_file fsF 2 (DupeFinder.mk0 ["dupes"] false) "base/a").state.duplicate_file_sizes,
      s = (FindFile.mk (DirData.mk "base/a" (mFile 100) 100) "H").data.size) ∧
      ∃ rest,
        (run_for_file fsF 2 (DupeFinder.mk0 ["dupes"] false) "base/a").state.file_sizes =
            [((FindFile.mk (DirData.mk "base/a" (mFile 100) 100) "H").data.size,
              (FindFile.mk (DirData.mk "base/a" (mFile 100) 100) "H").data :: rest)] ∧
          ∀ r ∈ rest,
            r.path ≠ (FindFile.mk (DirData.mk "base/a" (mFile 100) 100) "H").data.path :=
  C10_target_mode_bucket_shape fsF 2 ["dupes"] false "base/a"
    (FindFile.mk (DirData.mk "base/a" (mFile 100) 100) "H") (by rfl)

end DF
